import Mathlib

/-!
Verification development for the crypto-forecast repository.

The development shallowly embeds the repository's core components:

* `data_fetcher.rs`: kline pagination, merging and conversion
  (`fetch_bitcoin_data`, `convert_binance_data`, `parse_to_f64`);
* `technical_analysis.rs`: the indicator engine
  (`calculate_technical_indicators`, `calculate_support_resistance`,
  the manual OBV and true-range loops) and the report assembly
  (`format_data_for_analysis`, `format_fear_greed_data`).

Modelling conventions:

* `f64` values are modelled as exact rationals `ℚ`; the arithmetic used by
  the embedding (`qadd`, `qsub`, `qmul`, `qdiv`, ...) is written directly on
  numerators and denominators so that concrete runs reduce inside the kernel,
  and is proved equal to Mathlib's field operations on `ℚ`.
  Divisions that can produce IEEE non-finite values (NaN or an infinity) are
  modelled by the type `FF`, whose `nonfin` element absorbs every division by
  zero; genuine f64 overflow to an infinity is outside the model.
* Network interaction is modelled by a trace of page results handed to the
  fetch function; the fetch additionally returns the list of
  `(startTime, endTime)` pairs of the kline requests it issued.
* Panics (`unwrap` on parse results or out-of-range timestamps) are modelled
  by `Option`: a `none` result of the report assembly is a panic.
* The indicators taken from the external `ta` crate (SMA, EMA, RSI, MACD,
  Bollinger bands, the ATR smoothing) are not part of this repository's
  sources and are modelled from the specification; each such definition
  carries a doc comment saying so.
-/

namespace CryptoForecast

set_option maxRecDepth 20000

/-! ## Kernel-reducible rational arithmetic

`Rat`'s own arithmetic is irreducible for kernel evaluation, so the embedding
uses these definitions, each proved equal to the Mathlib operation. -/

/-- Addition on `ℚ`, written so that the kernel can evaluate it. -/
def qadd (a b : ℚ) : ℚ := mkRat (a.num * b.den + b.num * a.den) (a.den * b.den)

/-- Negation on `ℚ`, written so that the kernel can evaluate it. -/
def qneg (a : ℚ) : ℚ := mkRat (-a.num) a.den

/-- Subtraction on `ℚ`, written so that the kernel can evaluate it. -/
def qsub (a b : ℚ) : ℚ := qadd a (qneg b)

/-- Multiplication on `ℚ`, written so that the kernel can evaluate it. -/
def qmul (a b : ℚ) : ℚ := mkRat (a.num * b.num) (a.den * b.den)

/-- Division on `ℚ` (total, with division by zero giving `0`, as in Mathlib),
written so that the kernel can evaluate it. -/
def qdiv (a b : ℚ) : ℚ := Rat.divInt (a.num * b.den) (a.den * b.num)

/-- The canonical map `ℕ → ℚ`, written so that the kernel can evaluate it. -/
def qofNat (n : ℕ) : ℚ := mkRat n 1

/-- The order on `ℚ` via cross multiplication (kernel-evaluable). -/
def qle (a b : ℚ) : Prop := a.num * b.den ≤ b.num * a.den

/-- The strict order on `ℚ` via cross multiplication (kernel-evaluable). -/
def qlt (a b : ℚ) : Prop := a.num * b.den < b.num * a.den

instance (a b : ℚ) : Decidable (qle a b) := by unfold qle; infer_instance

instance (a b : ℚ) : Decidable (qlt a b) := by unfold qlt; infer_instance

/-- `f64::max` on finite values (kernel-evaluable). -/
def qmax (a b : ℚ) : ℚ := if qlt a b then b else a

/-- `f64::min` on finite values (kernel-evaluable). -/
def qmin (a b : ℚ) : ℚ := if qlt b a then b else a

/-- `f64::abs` on finite values (kernel-evaluable). -/
def qabs (a : ℚ) : ℚ := if qlt a 0 then qneg a else a

/-- Sum of a list of rationals, as `iter().sum()`. -/
def qsum (l : List ℚ) : ℚ := l.foldl qadd 0

/-! ## A minimal model of f64 finiteness

`fin q` is a finite double of exact value `q`; `nonfin` stands for any NaN or
infinity. Division by zero produces `nonfin`, which then absorbs every
arithmetic operation; comparisons against `nonfin` are `false` (as every
comparison against NaN is in IEEE arithmetic). -/

inductive FF where
  | fin (q : ℚ)
  | nonfin
deriving DecidableEq, Repr

/-- Whether the value is finite. -/
def FF.isFin : FF → Bool
  | .fin _ => true
  | .nonfin => false

/-- f64 division: division by zero gives a non-finite value. -/
def ffDiv : FF → FF → FF
  | .fin a, .fin b => if b.num = 0 then .nonfin else .fin (qdiv a b)
  | _, _ => .nonfin

/-- f64 multiplication (no overflow modelled). -/
def ffMul : FF → FF → FF
  | .fin a, .fin b => .fin (qmul a b)
  | _, _ => .nonfin

/-- f64 subtraction (no overflow modelled). -/
def ffSub : FF → FF → FF
  | .fin a, .fin b => .fin (qsub a b)
  | _, _ => .nonfin

/-- f64 strict `>`; false when either side is non-finite (as for NaN). -/
def ffGt : FF → FF → Bool
  | .fin a, .fin b => decide (qlt b a)
  | _, _ => false

/-- f64 strict `<`; false when either side is non-finite (as for NaN). -/
def ffLt : FF → FF → Bool
  | .fin a, .fin b => decide (qlt a b)
  | _, _ => false

/-! ## Forward-pass machinery

All indicators of the engine are computed in a single forward pass over the
price series; `scanVals` runs a step function and collects its per-candle
outputs. -/

/-- Run `step` over `xs` from state `s`, collecting the emitted values. -/
def scanVals {σ α : Type} (step : σ → ℚ → σ × α) : σ → List ℚ → List α
  | _, [] => []
  | s, x :: xs =>
    let p := step s x
    p.2 :: scanVals step p.1 xs

/-- The last `n` elements of a list (the values the engine retains for the
"last 5 periods" views). -/
def lastN {α : Type} (n : ℕ) (l : List α) : List α := l.drop (l.length - n)

/-! ## Indicator state machines

The repository drives indicator values from the external `ta` crate, which is
not part of its sources; the step functions below are modelled from the
specification's descriptions of them. The OBV and true-range computations are
written out in `technical_analysis.rs` itself and are embedded from that
source further down. -/

/-- Modelled from the spec: `ta::SimpleMovingAverage` (external crate),
"Simple arithmetic mean over trailing window"; before the window is full the
mean is taken over the values seen so far. State: the trailing window. -/
def smaStep (n : ℕ) (w : List ℚ) (x : ℚ) : List ℚ × ℚ :=
  let w2 := if w.length < n then w ++ [x] else w.drop 1 ++ [x]
  (w2, qdiv (qsum w2) (qofNat w2.length))

/-- The per-candle SMA values of the whole forward pass. -/
def smaSeries (n : ℕ) (xs : List ℚ) : List ℚ := scanVals (smaStep n) [] xs

/-- Modelled from the spec: `ta::ExponentialMovingAverage` (external crate),
"Standard exponential smoothing, α = 2/(N+1)"; the first value is the first
input. State: the previous EMA value, if any. -/
def emaStep (n : ℕ) (st : Option ℚ) (x : ℚ) : Option ℚ × ℚ :=
  match st with
  | none => (some x, x)
  | some prev =>
    let k := qdiv 2 (qofNat (n + 1))
    let v := qadd (qmul k x) (qmul (qsub 1 k) prev)
    (some v, v)

/-- The per-candle EMA values of the whole forward pass. -/
def emaSeries (n : ℕ) (xs : List ℚ) : List ℚ := scanVals (emaStep n) none xs

/-- Modelled from the spec: `ta::RelativeStrengthIndex` (external crate),
"Wilder smoothing of average gain/loss"; the first value is the neutral 50,
and the division is guarded when both smoothed averages are zero
(spec: division by zero must be guarded, never producing NaN/Infinity).
State: previous close and the smoothed average gain and loss. -/
def rsiStep (n : ℕ) (st : Option (ℚ × ℚ × ℚ)) (x : ℚ) : Option (ℚ × ℚ × ℚ) × ℚ :=
  match st with
  | none => (some (x, 0, 0), 50)
  | some (prev, avgGain, avgLoss) =>
    let gain := qmax (qsub x prev) 0
    let loss := qmax (qsub prev x) 0
    let g2 := qdiv (qadd (qmul avgGain (qsub (qofNat n) 1)) gain) (qofNat n)
    let l2 := qdiv (qadd (qmul avgLoss (qsub (qofNat n) 1)) loss) (qofNat n)
    let v := if (qadd g2 l2).num = 0 then 50 else qdiv (qmul 100 g2) (qadd g2 l2)
    (some (x, g2, l2), v)

/-- The per-candle RSI values of the whole forward pass. -/
def rsiSeries (n : ℕ) (xs : List ℚ) : List ℚ := scanVals (rsiStep n) none xs

/-- One MACD output: line, signal and histogram. -/
structure MacdVal where
  macd : ℚ
  signal : ℚ
  histogram : ℚ
deriving DecidableEq, Repr

/-- Modelled from the spec: `ta::MovingAverageConvergenceDivergence` (external
crate): "MACD = EMA12−EMA26; Signal = EMA9(MACD); Histogram = MACD−Signal".
State: the states of the three EMAs. -/
def macdStep (st : Option ℚ × Option ℚ × Option ℚ) (x : ℚ) :
    (Option ℚ × Option ℚ × Option ℚ) × MacdVal :=
  let e12 := emaStep 12 st.1 x
  let e26 := emaStep 26 st.2.1 x
  let line := qsub e12.2 e26.2
  let e9 := emaStep 9 st.2.2 line
  ((e12.1, e26.1, e9.1), ⟨line, e9.2, qsub line e9.2⟩)

/-- The per-candle MACD values of the whole forward pass. -/
def macdSeries (xs : List ℚ) : List MacdVal :=
  scanVals macdStep (none, none, none) xs

/-- One Bollinger-bands output. -/
structure BbVal where
  upper : ℚ
  average : ℚ
  lower : ℚ
deriving DecidableEq, Repr

/-- Modelled from the spec: `ta::BollingerBands` (external crate):
"middle = SMA20, upper/lower = middle ± 2·stddev(20)", over the same trailing
window as the SMA. The square root is taken through the `sqrtf` parameter,
an executable stand-in for the real square root. State: the trailing
window. -/
def bbStep (sqrtf : ℚ → ℚ) (n : ℕ) (k : ℚ) (w : List ℚ) (x : ℚ) :
    List ℚ × BbVal :=
  let w2 := if w.length < n then w ++ [x] else w.drop 1 ++ [x]
  let mean := qdiv (qsum w2) (qofNat w2.length)
  let varce := qdiv (qsum (w2.map (fun v => qmul (qsub v mean) (qsub v mean))))
    (qofNat w2.length)
  let sd := sqrtf varce
  (w2, ⟨qadd mean (qmul k sd), mean, qsub mean (qmul k sd)⟩)

/-- The per-candle Bollinger values of the whole forward pass. -/
def bbSeries (sqrtf : ℚ → ℚ) (n : ℕ) (k : ℚ) (xs : List ℚ) : List BbVal :=
  scanVals (bbStep sqrtf n k) [] xs

/-- Modelled from the spec: the smoothing inside `ta::AverageTrueRange`
(external crate): the true-range inputs (computed by the repository's own
loop) are Wilder-smoothed; the first value is the first input. -/
def atrNext (n : ℕ) (st : Option ℚ) (x : ℚ) : Option ℚ × ℚ :=
  match st with
  | none => (some x, x)
  | some prev =>
    let v := qdiv (qadd (qmul prev (qsub (qofNat n) 1)) x) (qofNat n)
    (some v, v)

/-- An executable approximation of the square root on `ℚ`, used to
instantiate the `sqrtf` parameter at concrete inputs. It is exact at `0`
(`ratSqrt 0 = 0`) and never negative, which is all the development uses. -/
def ratSqrt (q : ℚ) : ℚ := qofNat (Nat.sqrt q.num.toNat)

/-! ## The data model (`data_fetcher.rs`, struct `CryptoData`) -/

/-- `CryptoData` of `data_fetcher.rs`: parallel `(timestamp, value)`
sequences plus the combined OHLCV rows. -/
structure CryptoData where
  prices : List (ℚ × ℚ)
  volumes : List (ℚ × ℚ)
  high_prices : List (ℚ × ℚ)
  low_prices : List (ℚ × ℚ)
  open_prices : List (ℚ × ℚ)
  ohlc_data : List (ℚ × ℚ × ℚ × ℚ × ℚ × ℚ)
deriving DecidableEq, Repr

/-! ## The indicator engine (`technical_analysis.rs`,
`calculate_technical_indicators`)

The source interleaves computing each indicator with pushing its text onto
the result string. The embedding splits this into a structured computation
(`technicalIndicators`, below) and a rendering stage
(`calculate_technical_indicators`, further down) that produces the string;
each field of `TechOutput` is `some` exactly when the source pushes the
corresponding section. -/

/-- The OBV loop of `calculate_technical_indicators` (lines 702-720): the
running value starts at 0 and each later candle adds the volume when the
close rose, subtracts it when it fell, and leaves it unchanged when flat.
`l` holds the remaining `(price, volume)` pairs from index 1 on. -/
def obvLoop : ℚ → ℚ → List (ℚ × ℚ) → List ℚ
  | _, _, [] => []
  | prevPrice, obv, pv :: rest =>
    let o2 := if qlt prevPrice pv.1 then qadd obv pv.2
      else if qlt pv.1 prevPrice then qsub obv pv.2 else obv
    o2 :: obvLoop pv.1 o2 rest

/-- The full OBV value sequence (`obv_values` in the source): a leading `0`
followed by the loop over indices `1..len`. -/
def obvValues (price_values volume_values : List ℚ) : List ℚ :=
  match price_values, volume_values with
  | p0 :: ps, _ :: vs => 0 :: obvLoop p0 0 (ps.zip vs)
  | _, _ => []

/-- The true range of `calculate_technical_indicators` (lines 805-809):
the greatest of high−low, |high−prevClose| and |low−prevClose|. -/
def trueRange (high low prevClose : ℚ) : ℚ :=
  qmax (qmax (qsub high low) (qabs (qsub high prevClose)))
    (qabs (qsub low prevClose))

/-- The ATR loop of `calculate_technical_indicators` (lines 794-817): for
each index of `idxs` (the source iterates `1..price_values.len()`), if the
index is inside both the high and the low series, feed the manual true range
into the smoothing state; record the value (with the close) for the last 5
indices. -/
def atrGo (highs lows prices : List ℚ) (n : ℕ) :
    Option ℚ → List ℕ → List (ℚ × ℚ)
  | _, [] => []
  | st, i :: rest =>
    if i < highs.length ∧ i < lows.length then
      let tr := trueRange (highs.getD i 0) (lows.getD i 0) (prices.getD (i - 1) 0)
      let p := atrNext 14 st tr
      (if n - 5 ≤ i then [(p.2, prices.getD i 0)] else []) ++
        atrGo highs lows prices n p.1 rest
    else atrGo highs lows prices n st rest

/-- `calculate_support_resistance` of `technical_analysis.rs`: the min and
max of the close-price series, `(0, 0)` for an empty series. -/
def calculate_support_resistance (prices : List ℚ) : ℚ × ℚ :=
  if prices.isEmpty then (0, 0)
  else (prices.foldl qmin (prices.headD 0), prices.foldl qmax (prices.headD 0))

/-- The SMA section: the source emits four averages when the series has at
least 200 closes and two when it has between 20 and 199. -/
inductive SmaSection where
  | long (sma7_values sma20_values sma50_values sma200_values : List ℚ)
  | short (sma7_values sma20_values : List ℚ)
deriving DecidableEq, Repr

/-- Whether an SMA section is the 200-candle variant. -/
def SmaSection.isLong : SmaSection → Bool
  | .long _ _ _ _ => true
  | .short _ _ => false

/-- The EMA section, with the same two variants as the SMA section. -/
inductive EmaSection where
  | long (ema12_values ema26_values ema50_values ema200_values : List ℚ)
  | short (ema12_values ema26_values : List ℚ)
deriving DecidableEq, Repr

/-- Whether an EMA section is the 200-candle variant. -/
def EmaSection.isLong : EmaSection → Bool
  | .long _ _ _ _ => true
  | .short _ _ => false

/-- One displayed Bollinger-bands period: the band values, the close, and
the position of the close inside the band, `(price − lower)/width · 100` —
a division the source does not guard. -/
structure BbDisplay where
  val : BbVal
  price : ℚ
  position : FF
deriving DecidableEq, Repr

/-- One displayed OBV period: the OBV value and its percent change
`(obv − prev)/max(|obv|, 1) · 100`, whose denominator the source guards
with a minimum of 1. -/
structure ObvEntry where
  obv : ℚ
  change : FF
deriving DecidableEq, Repr

/-- The OBV section: the last five periods plus the 5-period overall change
`(last − fifthLast)/max(|last|, 1) · 100` (guarded the same way). -/
structure ObvSection where
  entries : List ObvEntry
  overall_change : FF
deriving DecidableEq, Repr

/-- One displayed ATR period: the smoothed value, the close, and ATR as a
percentage of the close — a division the source does not guard. -/
structure AtrEntry where
  atr : ℚ
  price : ℚ
  atr_percent : FF
deriving DecidableEq, Repr

/-- The structured output of `calculate_technical_indicators`: one field per
text section, `some` exactly when the source emits the section. Support and
resistance are emitted unconditionally. -/
structure TechOutput where
  sma : Option SmaSection
  ema : Option EmaSection
  rsi : Option (List ℚ)
  macd : Option (List MacdVal)
  bb : Option (List BbDisplay)
  obv : Option ObvSection
  atr : Option (List AtrEntry)
  support_resistance : ℚ × ℚ
deriving DecidableEq, Repr

/-- The percent change between consecutive OBV values, with the guarded
denominator `max(|current|, 1)` (source line 738). -/
def obvChange (cur prev : ℚ) : FF :=
  ffMul (ffDiv (.fin (qsub cur prev)) (.fin (qmax (qabs cur) 1))) (.fin 100)

/-- The last five OBV display entries (source lines 734-738): for each of
the last five indices, the OBV value and its guarded percent change, with
`0` as the previous value at index 0. -/
def obvEntries (obv_values : List ℚ) : List ObvEntry :=
  (List.range 5).map fun i =>
    let idx := obv_values.length - 5 + i
    let cur := obv_values.getD idx 0
    let prev := if 0 < idx then obv_values.getD (idx - 1) 0 else 0
    ⟨cur, obvChange cur prev⟩

/-- The computation half of `calculate_technical_indicators`
(`technical_analysis.rs` lines 154-872), with the per-section string
building split off into the rendering stage. `sqrtf` stands for the square
root used inside the Bollinger standard deviation. -/
def technicalIndicators (sqrtf : ℚ → ℚ) (data : CryptoData) : TechOutput :=
  let price_values := data.prices.map Prod.snd
  let volume_values := data.volumes.map Prod.snd
  let high_values :=
    if data.high_prices.isEmpty then price_values
    else data.high_prices.map Prod.snd
  let low_values :=
    if data.low_prices.isEmpty then price_values
    else data.low_prices.map Prod.snd
  let n := price_values.length
  { sma :=
      if 200 ≤ n then
        some (.long (lastN 5 (smaSeries 7 price_values))
          (lastN 5 (smaSeries 20 price_values))
          (lastN 5 (smaSeries 50 price_values))
          (lastN 5 (smaSeries 200 price_values)))
      else if 20 ≤ n then
        some (.short (lastN 5 (smaSeries 7 price_values))
          (lastN 5 (smaSeries 20 price_values)))
      else none
    ema :=
      if 200 ≤ n then
        some (.long (lastN 5 (emaSeries 12 price_values))
          (lastN 5 (emaSeries 26 price_values))
          (lastN 5 (emaSeries 50 price_values))
          (lastN 5 (emaSeries 200 price_values)))
      else if 20 ≤ n then
        some (.short (lastN 5 (emaSeries 12 price_values))
          (lastN 5 (emaSeries 26 price_values)))
      else none
    rsi := if 14 ≤ n then some (lastN 5 (rsiSeries 14 price_values)) else none
    macd := if 35 ≤ n then some (lastN 5 (macdSeries price_values)) else none
    bb :=
      if 20 ≤ n then
        some ((lastN 5 ((bbSeries sqrtf 20 2 price_values).zip price_values)).map
          fun bp =>
            ⟨bp.1, bp.2,
              ffMul (ffDiv (.fin (qsub bp.2 bp.1.lower))
                (.fin (qsub bp.1.upper bp.1.lower))) (.fin 100)⟩)
      else none
    obv :=
      if ¬ price_values.isEmpty ∧ ¬ volume_values.isEmpty ∧
          price_values.length = volume_values.length then
        let obv_values := obvValues price_values volume_values
        if 5 ≤ obv_values.length then
          some
            { entries := obvEntries obv_values
              overall_change :=
                ffMul (ffDiv
                  (.fin (qsub (obv_values.getD (obv_values.length - 1) 0)
                    (obv_values.getD (obv_values.length - 5) 0)))
                  (.fin (qmax (qabs (obv_values.getD (obv_values.length - 1) 0)) 1)))
                  (.fin 100) }
        else none
      else none
    atr :=
      if 14 ≤ high_values.length ∧ 14 ≤ low_values.length ∧ 14 ≤ n then
        let atr_values := atrGo high_values low_values price_values n none
          (List.range' 1 (n - 1))
        if 1 ≤ atr_values.length then
          some (atr_values.map fun ap =>
            ⟨ap.1, ap.2, ffMul (ffDiv (.fin ap.1) (.fin ap.2)) (.fin 100)⟩)
        else none
      else none
    support_resistance := calculate_support_resistance price_values }

/-! ## The fetch (`data_fetcher.rs`, `fetch_bitcoin_data`) -/

/-- A JSON value as far as the kline payload is concerned: the Binance rows
carry numbers either as native JSON numbers or as numeric strings. -/
inductive JVal where
  | num (q : ℚ)
  | str (s : String)
  | other
deriving DecidableEq, Repr

/-- One kline row: a fixed-position array
`[open_time, open, high, low, close, volume, close_time, ...]`. -/
abbrev Kline := List JVal

/-- Parse a run of decimal digit characters. -/
def parseDigits : List Char → Option ℕ
  | [] => none
  | l =>
    if l.all Char.isDigit then
      some (l.foldl (fun acc c => 10 * acc + (c.toNat - 48)) 0)
    else none

/-- A plain decimal number, the fragment of `str::parse::<f64>` the payload
can contain: optional sign, integer digits, optional fraction digits. -/
def parseDecimal (s : String) : Option ℚ :=
  let core : List Char → Option ℚ := fun l =>
    match l.splitOn '.' with
    | [ip] => (parseDigits ip).map qofNat
    | [ip, fp] =>
      if ip.isEmpty ∧ fp.isEmpty then none
      else
        let ipn := if ip.isEmpty then some 0 else parseDigits ip
        let fpn := if fp.isEmpty then some 0 else parseDigits fp
        match ipn, fpn with
        | some i, some f => some (qadd (qofNat i) (qdiv (qofNat f) (qofNat (10 ^ fp.length))))
        | _, _ => none
    | _ => none
  match s.data with
  | '-' :: rest => (core rest).map qneg
  | l => core l

/-- `parse_to_f64` of `data_fetcher.rs`: strings are parsed with fallback
`0.0`, numbers are taken as they are, anything else is `0.0`. -/
def parse_to_f64 : JVal → ℚ
  | .str s => (parseDecimal s).getD 0
  | .num q => q
  | .other => 0

/-- The truncating cast `f64 as u64` (negative values saturate to 0). -/
def ratToNat (q : ℚ) : ℕ := if q.num < 0 then 0 else q.num.toNat / q.den

/-- `convert_binance_data` of `data_fetcher.rs`: keep rows with at least six
fields and split them into the parallel sequences of `CryptoData`. -/
def convert_binance_data (klines : List Kline) : CryptoData :=
  let valid := klines.filter fun k => 6 ≤ k.length
  let fld := fun (k : Kline) (i : ℕ) => parse_to_f64 (k.getD i .other)
  { prices := valid.map fun k => (fld k 0, fld k 4)
    volumes := valid.map fun k => (fld k 0, fld k 5)
    high_prices := valid.map fun k => (fld k 0, fld k 2)
    low_prices := valid.map fun k => (fld k 0, fld k 3)
    open_prices := valid.map fun k => (fld k 0, fld k 1)
    ohlc_data := valid.map fun k =>
      (fld k 0, fld k 1, fld k 2, fld k 3, fld k 4, fld k 5) }

/-- The comparator of the sort at `data_fetcher.rs` lines 122-131, as the
"not greater" relation: rows are compared by parsed open time, and a row
without fields compares `Equal` to everything. -/
def klineLe (a b : Kline) : Bool :=
  if 0 < a.length ∧ 0 < b.length then
    decide (qle (parse_to_f64 (a.getD 0 .other)) (parse_to_f64 (b.getD 0 .other)))
  else true

/-- Ordered insertion: the element goes in front of the first entry it
compares less-or-equal to. Used to model Rust's stable `sort_by`. -/
def insertLe {α : Type} (le : α → α → Bool) (x : α) : List α → List α
  | [] => [x]
  | y :: ys => if le x y then x :: y :: ys else y :: insertLe le x ys

/-- A stable comparison sort (insertion sort), modelling `slice::sort_by`,
which is specified as a stable sort by the comparator. -/
def sortByComparator {α : Type} (le : α → α → Bool) : List α → List α
  | [] => []
  | x :: xs => insertLe le x (sortByComparator le xs)

/-- The sort of the collected klines by open time (lines 122-131). -/
def sortKlines (klines : List Kline) : List Kline :=
  sortByComparator klineLe klines

/-- The outcome of one kline page request, as the fetch distinguishes them:
a decoded payload on HTTP success, a non-success HTTP status, or a
transport/decode failure (a `reqwest` or JSON error, which the source
propagates with `?`). -/
inductive PageResult where
  | ok (klines : List Kline)
  | httpFail
  | netFail
deriving DecidableEq, Repr

/-- The last close time of a page, as the source reads it: field 6 of the
last row, parsed and cast to `u64`. -/
def lastCloseNat (page : List Kline) : ℕ :=
  ratToNat (parse_to_f64 ((page.getLastD []).getD 6 .other))

/-- The pagination loop of `fetch_bitcoin_data` (lines 79-117). The network
is modelled by the list of page results consumed one per request; the
returned log holds the `(startTime, endTime)` pair of every request the
loop issued. The loop runs while `newStart < endTime`; a non-success status
breaks with the data accumulated so far; a transport/decode failure is an
error (the source's `?`); an empty page, or a page whose last row is too
short, breaks; otherwise the page is appended and the next request starts
at its last close time plus one. An exhausted trace models the environment
refusing further requests and ends the run with the accumulated data. -/
def paginationLoop (endTime : ℕ) (responses : List PageResult) (newStart : ℕ)
    (acc : List Kline) : Except String (List Kline) × List (ℕ × ℕ) :=
  if newStart < endTime then
    match responses with
    | [] => (Except.ok acc, [])
    | .netFail :: _ => (Except.error ("pagination transport"), [(newStart, endTime)])
    | .httpFail :: _ => (Except.ok acc, [(newStart, endTime)])
    | .ok additional :: rest =>
      if additional.isEmpty then (Except.ok acc, [(newStart, endTime)])
      else
        match additional.getLast? with
        | some nextLast =>
          if 6 < nextLast.length then
            let p := paginationLoop endTime rest
              (ratToNat (parse_to_f64 (nextLast.getD 6 .other)) + 1)
              (acc ++ additional)
            (p.1, (newStart, endTime) :: p.2)
          else (Except.ok acc, [(newStart, endTime)])
        | none => (Except.ok acc, [(newStart, endTime)])
  else (Except.ok acc, [])

/-- `advancingB ns rs`: every page of the trace that keeps the loop running
has a last close time at least the start of the request it answers (so each
follow-up request strictly advances the start). -/
def advancingB : ℕ → List PageResult → Bool
  | _, [] => true
  | ns, .ok page :: rest =>
    if page.isEmpty then true
    else if 6 < (page.getLastD []).length then
      decide (ns ≤ lastCloseNat page) && advancingB (lastCloseNat page + 1) rest
    else true
  | _, .httpFail :: _ => true
  | _, .netFail :: _ => true

/-- `fetch_bitcoin_data` of `data_fetcher.rs` (lines 42-150). The first
page result and the trace of pagination page results model the network;
the second component of the result is the log of `(startTime, endTime)`
pairs of every kline request issued. A transport/decode failure or a
non-success status on the first page is an error; pagination runs only when
the first page holds exactly 1000 rows and its last row has a close time;
afterwards the collected rows are sorted by open time and converted. -/
def fetch_bitcoin_data (startTime endTime : ℕ) (first : PageResult)
    (rest : List PageResult) : Except String CryptoData × List (ℕ × ℕ) :=
  match first with
  | .netFail => (Except.error ("transport"), [(startTime, endTime)])
  | .httpFail =>
    (Except.error ("API request failed with status"), [(startTime, endTime)])
  | .ok klines =>
    let pag :=
      if klines.length = 1000 then
        if 6 < (klines.getLastD []).length then
          paginationLoop endTime rest
            (ratToNat (parse_to_f64 ((klines.getLastD []).getD 6 .other)) + 1)
            klines
        else (Except.ok klines, [])
      else (Except.ok klines, [])
    (pag.1.map (fun all_klines => convert_binance_data (sortKlines all_klines)),
      (startTime, endTime) :: pag.2)

/-! ## Report assembly (`technical_analysis.rs`, `format_data_for_analysis`)

The assembly is a pure string computation except for its `unwrap` calls:
`timestamp.parse::<i64>().unwrap()` on the sentiment timestamps and
`DateTime::from_timestamp(..).unwrap()` on every rendered date. These are
modelled by `Option`: a `none` result is a panic. -/

/-- A sentiment point as fetched (`data_fetcher.rs`, struct
`FearGreedData`): all three fields arrive as strings. -/
structure FearGreedData where
  value : String
  value_classification : String
  timestamp : String
deriving DecidableEq, Repr

/-- `str::parse::<i64>`: optional sign, decimal digits, range check. -/
def parseI64 (s : String) : Option ℤ :=
  let core : List Char → Option ℤ := fun l => (parseDigits l).map Int.ofNat
  let v : Option ℤ :=
    match s.data with
    | '-' :: rest => (core rest).map Int.neg
    | '+' :: rest => core rest
    | l => core l
  match v with
  | some x => if -(2 ^ 63) ≤ x ∧ x ≤ 2 ^ 63 - 1 then some x else none
  | none => none

/-- The truncating cast `f64 as i64`. -/
def ratTrunc (q : ℚ) : ℤ := Int.tdiv q.num q.den

/-- Left-pad a numeral string with zeros. -/
def zeroPad (w : ℕ) (s : String) : String :=
  (List.replicate (w - s.length) '0').asString ++ s

/-- The civil calendar date of a day count relative to 1970-01-01
(the standard days-to-civil conversion used by date libraries). -/
def civilFromDays (z0 : ℤ) : ℤ × ℕ × ℕ :=
  let z := z0 + 719468
  let era := Int.fdiv z 146097
  let doe := (z - era * 146097).toNat
  let yoe := (doe - doe / 1460 + doe / 36524 - doe / 146096) / 365
  let y := (yoe : ℤ) + era * 400
  let doy := doe - (365 * yoe + yoe / 4 - yoe / 100)
  let mp := (5 * doy + 2) / 153
  let d := doy - (153 * mp + 2) / 5 + 1
  let m := if mp < 10 then mp + 3 else mp - 9
  (if m ≤ 2 then y + 1 else y, m, d)

/-- A broken-down UTC timestamp. -/
structure DateTimeParts where
  year : ℤ
  month : ℕ
  day : ℕ
  hour : ℕ
  minute : ℕ
  second : ℕ
deriving DecidableEq, Repr

/-- `chrono::DateTime::from_timestamp(secs, 0)`: `none` models the `None`
that the source `unwrap`s (a timestamp whose date falls outside the
representable year range). -/
def from_timestamp (secs : ℤ) : Option DateTimeParts :=
  let days := Int.fdiv secs 86400
  let sod := (secs - days * 86400).toNat
  let ymd := civilFromDays days
  if -262144 ≤ ymd.1 ∧ ymd.1 ≤ 262143 then
    some ⟨ymd.1, ymd.2.1, ymd.2.2, sod / 3600, sod % 3600 / 60, sod % 60⟩
  else none

/-- Format a year as `%Y`. -/
def fmtYear (y : ℤ) : String :=
  if 0 ≤ y then zeroPad 4 (toString y.toNat)
  else "-" ++ zeroPad 4 (toString (-y).toNat)

/-- Format `%Y-%m-%d`. -/
def fmtYmd (t : DateTimeParts) : String :=
  fmtYear t.year ++ "-" ++ zeroPad 2 (toString t.month) ++ "-" ++
    zeroPad 2 (toString t.day)

/-- Format `%Y-%m-%d %H:%M:%S`. -/
def fmtYmdHms (t : DateTimeParts) : String :=
  fmtYmd t ++ " " ++ zeroPad 2 (toString t.hour) ++ ":" ++
    zeroPad 2 (toString t.minute) ++ ":" ++ zeroPad 2 (toString t.second)

/-- Rust `{:.prec}` formatting of a finite double: round to `prec` decimal
places and print without an exponent. -/
def fmtRatFixed (prec : ℕ) (q : ℚ) : String :=
  let p : ℤ := (10 : ℤ) ^ prec
  let n : ℤ := Int.fdiv (2 * q.num * p + q.den) (2 * q.den)
  let na := n.natAbs
  let pn := (10 : ℕ) ^ prec
  (if n < 0 then "-" else "") ++ toString (na / pn) ++
    (if prec = 0 then "" else "." ++ zeroPad prec (toString (na % pn)))

/-- `{:.prec}` formatting of a possibly non-finite double. -/
def fmtFF (prec : ℕ) : FF → String
  | .fin q => fmtRatFixed prec q
  | .nonfin => "NaN"

/-- A dollar amount, `${:.2}`. -/
def money (q : ℚ) : String := "$" ++ fmtRatFixed 2 q

/-- The render of one candle timestamp (epoch milliseconds as f64):
`(timestamp as i64) / 1000` through `from_timestamp` and
`%Y-%m-%d %H:%M:%S`; `none` models the panicking `unwrap`. -/
def msDate (ts : ℚ) : Option String :=
  (from_timestamp (Int.tdiv (ratTrunc ts) 1000)).map fmtYmdHms

/-- The timestamps of the last five periods, collected by every indicator
section when the series has at least five candles (and left empty
otherwise, in which case the sections print a placeholder). -/
def sectionTimestamps (data : CryptoData) : List ℚ :=
  if 5 ≤ data.prices.length then lastN 5 (data.prices.map Prod.fst) else []

/-- The date label of row `i` of a section: the formatted timestamp when
one exists, otherwise the source's `Period -k` placeholder. -/
def dateAt (tss : List ℚ) (i : ℕ) : Option String :=
  if i < tss.length then msDate (tss.getD i 0)
  else some ("Period -" ++ toString (5 - i))

/-- A sequential fail-fast map, modelling a source loop whose body can
panic: the first failing element aborts the whole computation. -/
def optMapM {α β : Type} (f : α → Option β) : List α → Option (List β)
  | [] => some []
  | x :: xs => do
    let b ← f x
    let bs ← optMapM f xs
    pure (b :: bs)

/-- The date labels of a section's rows. -/
def sectionDates (tss : List ℚ) (count : ℕ) : Option (List String) :=
  optMapM (dateAt tss) (List.range count)

/-- Render an optional section: an absent section contributes the empty
string (the source pushes nothing for it). -/
def renderOpt {β : Type} (o : Option β) (k : β → Option String) :
    Option String :=
  match o with
  | none => pure ""
  | some s => k s

/-- The text of the SMA section (lines 181-326), given the date labels and
the most recent close. -/
def renderSma (s : SmaSection) (dates : List String) (current_price : ℚ) :
    String :=
  match s with
  | .long s7 s20 s50 s200 =>
    "\nSimple Moving Averages (Last 5 periods):\n" ++
    String.join ((List.range (min 5 s7.length)).map fun i =>
      dates.getD i "" ++ ":\n" ++
      "  SMA (7-period): " ++ money (s7.getD i 0) ++ "\n" ++
      "  SMA (20-period): " ++ money (s20.getD i 0) ++ "\n" ++
      "  SMA (50-period): " ++ money (s50.getD i 0) ++ "\n" ++
      "  SMA (200-period): " ++ money (s200.getD i 0) ++ "\n") ++
    "\nSMA Trend Analysis:\n" ++
    (if qlt (s20.getLastD 0) (s7.getLastD 0) then
      "Short-term Trend: Bullish (7 above 20)\n"
    else "Short-term Trend: Bearish (7 below 20)\n") ++
    (if qlt (s200.getLastD 0) (s50.getLastD 0) then
      "Long-term Trend: Bullish (50 above 200, Golden Cross active)\n"
    else "Long-term Trend: Bearish (50 below 200, Death Cross active)\n") ++
    "Price relative to SMAs: " ++
    (if qlt (s200.getLastD 0) current_price ∧ qlt (s50.getLastD 0) current_price
      then "Strong bullish (Price above both 50 & 200 SMAs)"
    else if qlt (s200.getLastD 0) current_price then
      "Moderately bullish (Price above 200 SMA but below 50 SMA)"
    else if qlt (s50.getLastD 0) current_price then
      "Mixed signals (Price above 50 SMA but below 200 SMA)"
    else "Bearish (Price below both 50 & 200 SMAs)") ++ "\n"
  | .short s7 s20 =>
    "\nSimple Moving Averages (Last 5 periods):\n" ++
    String.join ((List.range (min 5 s7.length)).map fun i =>
      dates.getD i "" ++ ":\n" ++
      "  SMA (7-day): " ++ money (s7.getD i 0) ++ "\n" ++
      "  SMA (20-day): " ++ money (s20.getD i 0) ++ "\n") ++
    "\nSMA Trend Analysis:\n" ++
    (if qlt (s20.getLastD 0) (s7.getLastD 0) then
      "Trend: Bullish (Short-term SMA above Long-term SMA)\n"
    else "Trend: Bearish (Short-term SMA below Long-term SMA)\n")

/-- The text of the EMA section (lines 327-465), given the date labels. -/
def renderEma (s : EmaSection) (dates : List String) : String :=
  match s with
  | .long e12 e26 e50 e200 =>
    "\nExponential Moving Averages (Last 5 periods):\n" ++
    String.join ((List.range (min 5 e12.length)).map fun i =>
      dates.getD i "" ++ ":\n" ++
      "  EMA (12-period): " ++ money (e12.getD i 0) ++ "\n" ++
      "  EMA (26-period): " ++ money (e26.getD i 0) ++ "\n" ++
      "  EMA (50-period): " ++ money (e50.getD i 0) ++ "\n" ++
      "  EMA (200-period): " ++ money (e200.getD i 0) ++ "\n") ++
    "\nEMA Trend Analysis:\n" ++
    (if qlt (e26.getLastD 0) (e12.getLastD 0) then
      "Short-term EMA Trend: Bullish (12 above 26)\n"
    else "Short-term EMA Trend: Bearish (12 below 26)\n") ++
    (if qlt (e200.getLastD 0) (e50.getLastD 0) then
      "Long-term EMA Trend: Bullish (50 above 200)\n"
    else "Long-term EMA Trend: Bearish (50 below 200)\n") ++
    (if qlt (e50.getLastD 0) (e200.getLastD 0) ∧
        ffGt (ffDiv (.fin (e50.getLastD 0)) (.fin (e200.getLastD 0)))
          (.fin (mkRat 995 1000)) then
      "Alert: Potential golden cross forming (50 EMA approaching 200 EMA from below)\n"
    else if qlt (e200.getLastD 0) (e50.getLastD 0) ∧
        ffLt (ffDiv (.fin (e50.getLastD 0)) (.fin (e200.getLastD 0)))
          (.fin (mkRat 1005 1000)) then
      "Alert: Potential death cross forming (50 EMA approaching 200 EMA from above)\n"
    else "")
  | .short e12 e26 =>
    "\nExponential Moving Averages (Last 5 periods):\n" ++
    String.join ((List.range (min 5 e12.length)).map fun i =>
      dates.getD i "" ++ ":\n" ++
      "  EMA (12-day): " ++ money (e12.getD i 0) ++ "\n" ++
      "  EMA (26-day): " ++ money (e26.getD i 0) ++ "\n") ++
    "\nEMA Trend Analysis:\n" ++
    (if qlt (e26.getLastD 0) (e12.getLastD 0) then
      "Trend: Bullish (Short-term EMA above Long-term EMA)\n"
    else "Trend: Bearish (Short-term EMA below Long-term EMA)\n")

/-- The text of the RSI section (lines 466-530), given the date labels. -/
def renderRsi (vals : List ℚ) (dates : List String) : String :=
  "\nRSI With EMA (14-day) - Last 5 periods:\n" ++
  String.join ((List.range (min 5 vals.length)).map fun i =>
    let v := vals.getD i 0
    dates.getD i "" ++ ": " ++ fmtRatFixed 2 v ++ " - " ++
    (if qlt 70 v then "Overbought (>70)"
     else if qlt v 30 then "Oversold (<30)" else "Neutral (30-70)") ++ "\n") ++
  (if 2 ≤ vals.length then
    let last := vals.getLastD 0
    let prev := vals.getD (vals.length - 2) 0
    "\nRSI Trend: " ++
    (if qlt prev last then "Rising (Increasing momentum)\n"
     else if qlt last prev then "Falling (Decreasing momentum)\n"
     else "Flat (Stable momentum)\n")
  else "")

/-- The text of the MACD section (lines 531-618), given the date labels. -/
def renderMacd (vals : List MacdVal) (dates : List String) : String :=
  "\nMACD (12, 26, 9) - Last 5 periods:\n" ++
  String.join ((List.range (min 5 vals.length)).map fun i =>
    let v := vals.getD i ⟨0, 0, 0⟩
    dates.getD i "" ++ ":\n" ++
    "  MACD Line: " ++ fmtRatFixed 2 v.macd ++ "\n" ++
    "  Signal Line: " ++ fmtRatFixed 2 v.signal ++ "\n" ++
    "  Histogram: " ++ fmtRatFixed 2 v.histogram ++ "\n" ++
    "  Indication: " ++
    (if qlt v.signal v.macd then
      if qlt 0 v.macd ∧ qlt 0 v.signal then
        "Bullish (MACD above Signal, both positive)"
      else "Potential bullish crossover (below zero)"
    else
      if qlt v.macd 0 ∧ qlt v.signal 0 then
        "Bearish (MACD below Signal, both negative)"
      else "Potential bearish crossover (above zero)") ++ "\n") ++
  (if 2 ≤ vals.length then
    let last := vals.getLastD ⟨0, 0, 0⟩
    let prev := vals.getD (vals.length - 2) ⟨0, 0, 0⟩
    "\nMACD Trend Analysis:\n" ++
    (if qlt last.signal last.macd ∧ ¬ qlt prev.signal prev.macd then
      "Signal: Bullish crossover (MACD crossed above Signal)\n"
    else if ¬ qlt last.signal last.macd ∧ qlt prev.signal prev.macd then
      "Signal: Bearish crossover (MACD crossed below Signal)\n"
    else if qlt last.signal last.macd then
      "Signal: Bullish momentum continues\n"
    else "Signal: Bearish momentum continues\n") ++
    (if qlt prev.histogram last.histogram then
      "Momentum: Increasing (Histogram rising)\n"
    else "Momentum: Decreasing (Histogram falling)\n")
  else "")

/-- The text of the Bollinger section (lines 619-698), given the date
labels. -/
def renderBb (vals : List BbDisplay) (dates : List String) : String :=
  "\nBollinger Bands (20, 2) - Last 5 periods:\n" ++
  String.join ((List.range (min 5 vals.length)).map fun i =>
    let v := vals.getD i ⟨⟨0, 0, 0⟩, 0, .fin 0⟩
    dates.getD i "" ++ ":\n" ++
    "  Upper Band: " ++ money v.val.upper ++ "\n" ++
    "  Middle Band (SMA): " ++ money v.val.average ++ "\n" ++
    "  Lower Band: " ++ money v.val.lower ++ "\n" ++
    "  Price: " ++ money v.price ++ "\n" ++
    "  Position: " ++ fmtFF 1 v.position ++ "% of band width from lower band\n" ++
    "  Indication: " ++
    (if qlt v.val.upper v.price then
      "Potentially overbought (price above upper band)"
    else if qlt v.price v.val.lower then
      "Potentially oversold (price below lower band)"
    else "Within normal trading range") ++ "\n") ++
  (if 2 ≤ vals.length then
    let last := vals.getLastD ⟨⟨0, 0, 0⟩, 0, .fin 0⟩
    let prev := vals.getD (vals.length - 2) ⟨⟨0, 0, 0⟩, 0, .fin 0⟩
    let lastWidth := qsub last.val.upper last.val.lower
    let prevWidth := qsub prev.val.upper prev.val.lower
    "\nBollinger Bands Volatility Analysis:\n" ++
    (if qlt prevWidth lastWidth then "Volatility: Increasing (Bands widening)\n"
     else if qlt lastWidth prevWidth then
      "Volatility: Decreasing (Bands narrowing)\n"
     else "Volatility: Stable (Band width unchanged)\n")
  else "")

/-- The text of the OBV section (lines 699-777), given the date labels. -/
def renderObv (s : ObvSection) (dates : List String) : String :=
  "\nOn Balance Volume (OBV) - Last 5 periods:\n" ++
  String.join ((List.range 5).map fun i =>
    let e := s.entries.getD i ⟨0, .fin 0⟩
    dates.getD i "" ++ ":\n" ++
    "  OBV: " ++ fmtRatFixed 0 e.obv ++ "\n" ++
    "  Change: " ++ fmtFF 2 e.change ++ "%\n" ++
    "  Indication: " ++
    (if ffGt e.change (.fin 2) then "Strong buying pressure (OBV increasing)"
     else if ffLt e.change (.fin (qneg 2)) then
      "Strong selling pressure (OBV decreasing)"
     else "Neutral volume pressure") ++ "\n") ++
  "\nOBV 5-Period Trend Analysis:\n" ++
  (if ffGt s.overall_change (.fin 5) then
    "Strong buying pressure over last 5 periods (OBV trending up)\n"
  else if ffLt s.overall_change (.fin (qneg 5)) then
    "Strong selling pressure over last 5 periods (OBV trending down)\n"
  else "Neutral volume pressure over last 5 periods\n")

/-- The text of the ATR section (lines 778-865), given the date labels. -/
def renderAtr (vals : List AtrEntry) (dates : List String) : String :=
  "\nAverage True Range (ATR) - Last 5 periods:\n" ++
  String.join ((List.range (min 5 vals.length)).map fun i =>
    let v := vals.getD i ⟨0, 0, .fin 0⟩
    dates.getD i "" ++ ":\n" ++
    "  ATR (14-day): " ++ money v.atr ++ "\n" ++
    "  ATR as % of price: " ++ fmtFF 2 v.atr_percent ++ "%\n" ++
    "  Volatility: " ++
    (if ffGt v.atr_percent (.fin 5) then "High (ATR > 5% of price)"
     else if ffGt v.atr_percent (.fin 3) then "Medium (ATR 3-5% of price)"
     else "Low (ATR < 3% of price)") ++ "\n") ++
  (if 2 ≤ vals.length then
    let last := (vals.getLastD ⟨0, 0, .fin 0⟩).atr
    let prev := (vals.getD (vals.length - 2) ⟨0, 0, .fin 0⟩).atr
    "\nATR Trend Analysis:\n" ++
    (if qlt prev last then "Volatility: Increasing (ATR rising)\n"
     else if qlt last prev then "Volatility: Decreasing (ATR falling)\n"
     else "Volatility: Stable (ATR unchanged)\n")
  else "")

/-- The row count of the SMA section display. -/
def smaCount : SmaSection → ℕ
  | .long s7 _ _ _ => min 5 s7.length
  | .short s7 _ => min 5 s7.length

/-- The row count of the EMA section display. -/
def emaCount : EmaSection → ℕ
  | .long e12 _ _ _ => min 5 e12.length
  | .short e12 _ => min 5 e12.length

/-- `calculate_technical_indicators` of `technical_analysis.rs` as the
string it pushes: the structured sections of `technicalIndicators` rendered
in source order, with the date `unwrap`s modelled by `Option`. -/
def calculate_technical_indicators (sqrtf : ℚ → ℚ) (data : CryptoData) :
    Option String := do
  let t := technicalIndicators sqrtf data
  let price_values := data.prices.map Prod.snd
  let tss := sectionTimestamps data
  let smaStr ← renderOpt t.sma fun s => do
    let dates ← sectionDates tss (smaCount s)
    pure (renderSma s dates (price_values.getLastD 0))
  let emaStr ← renderOpt t.ema fun s => do
    let dates ← sectionDates tss (emaCount s)
    pure (renderEma s dates)
  let rsiStr ← renderOpt t.rsi fun vals => do
    let dates ← sectionDates tss (min 5 vals.length)
    pure (renderRsi vals dates)
  let macdStr ← renderOpt t.macd fun vals => do
    let dates ← sectionDates tss (min 5 vals.length)
    pure (renderMacd vals dates)
  let bbStr ← renderOpt t.bb fun vals => do
    let dates ← sectionDates tss (min 5 vals.length)
    pure (renderBb vals dates)
  let obvStr ← renderOpt t.obv fun s => do
    let dates ← sectionDates tss 5
    pure (renderObv s dates)
  let atrStr ← renderOpt t.atr fun vals => do
    let dates ← sectionDates tss (min 5 vals.length)
    pure (renderAtr vals dates)
  pure ("\n=== TECHNICAL INDICATORS ===\n" ++ smaStr ++ emaStr ++ rsiStr ++
    macdStr ++ bbStr ++ obvStr ++ atrStr ++
    "\nSupport level: " ++ money t.support_resistance.1 ++ "\n" ++
    "Resistance level: " ++ money t.support_resistance.2 ++ "\n")

/-- `format_fear_greed_data` of `technical_analysis.rs` (lines 135-151):
each sentiment timestamp string is parsed with `unwrap` and rendered with
`unwrap`; both are modelled by `Option`. -/
def format_fear_greed_data (data : List FearGreedData) : Option String := do
  let lines ← optMapM (fun entry => do
    let ts ← parseI64 entry.timestamp
    let dt ← from_timestamp ts
    pure (fmtYmd dt ++ ": " ++ entry.value_classification ++ " - " ++
      entry.value ++ "\n")) data
  pure ("\n=== FEAR & GREED INDEX ===\n" ++
    "Date: Index classification - Index value\n" ++ String.join lines)

/-- `format_data_for_analysis` of `technical_analysis.rs` (lines 12-133):
the historical summary (or the debug fallback when the OHLC rows are
empty), the last-24 table, the indicator text and the sentiment block.
`none` models a panic of one of the source's `unwrap` calls. -/
def format_data_for_analysis (sqrtf : ℚ → ℚ) (data : CryptoData)
    (fng : List FearGreedData) : Option String := do
  let base ←
    if data.ohlc_data.isEmpty then do
      let rows ← optMapM (fun tp => do
        let d ← msDate tp.1
        pure (d ++ ": Price=" ++ money tp.2 ++ "\n")) data.prices
      pure ("Bitcoin price data (timestamp, price in USD): [Debug: OHLC data size: "
        ++ toString data.ohlc_data.length ++ ", Volumes size: " ++
        toString data.volumes.length ++ "]\n" ++ String.join rows)
    else do
      let all_prices ← optMapM (fun r => do
        let d ← msDate r.1
        pure (d, r.2.1, r.2.2.1, r.2.2.2.1, r.2.2.2.2.1)) data.ohlc_data
      let price_date_pairs := all_prices.map fun r => (r.1, r.2.2.2.2)
      let sorted_desc :=
        sortByComparator (fun a b => decide (qle b.2 a.2)) price_date_pairs
      let high5 := String.join ((sorted_desc.take 5).enum.map fun ie =>
        toString (ie.1 + 1) ++ ". " ++ ie.2.1 ++ ": " ++ money ie.2.2 ++ "\n")
      let sorted_asc :=
        sortByComparator (fun a b => decide (qle a.2 b.2)) sorted_desc
      let low5 := String.join ((sorted_asc.take 5).enum.map fun ie =>
        toString (ie.1 + 1) ++ ". " ++ ie.2.1 ++ ": " ++ money ie.2.2 ++ "\n")
      let close_prices := all_prices.map fun r => r.2.2.2.2
      let high_prices := all_prices.map fun r => r.2.2.1
      let low_prices := all_prices.map fun r => r.2.2.2.1
      let volumes := data.ohlc_data.map fun r => r.2.2.2.2.2
      let stats :=
        if all_prices.isEmpty then ""
        else
          let avg_close := qdiv (qsum close_prices) (qofNat close_prices.length)
          let max_price := high_prices.foldl qmax (high_prices.headD 0)
          let min_price := low_prices.foldl qmin (low_prices.headD 0)
          let avg_volume := qdiv (qsum volumes) (qofNat volumes.length)
          let varce := qdiv (qsum (close_prices.map fun p =>
            qmul (qsub p avg_close) (qsub p avg_close))) (qofNat close_prices.length)
          let std_dev := sqrtf varce
          "\nKey Statistics:\n" ++
          "Average Price: " ++ money avg_close ++ "\n" ++
          "All-Time High: " ++ money max_price ++ "\n" ++
          "All-Time Low: " ++ money min_price ++ "\n" ++
          "Price Range: " ++ money (qsub max_price min_price) ++ " (" ++
            money min_price ++ " to " ++ money max_price ++ ")\n" ++
          "Price Volatility (Std Dev): " ++ money std_dev ++ " (" ++
            fmtFF 2 (ffMul (ffDiv (.fin std_dev) (.fin avg_close)) (.fin 100)) ++
            "%)\n" ++
          "Average Daily Volume: " ++ fmtRatFixed 2 avg_volume ++ "\n" ++
          (if 30 ≤ close_prices.length then
            let current := close_prices.getLastD 0
            let p30 := close_prices.getD (close_prices.length - 30) 0
            let p7 := close_prices.getD
              (close_prices.length - min 7 close_prices.length) 0
            "30-Day Price Change: " ++
              fmtFF 2 (ffMul (ffDiv (.fin (qsub current p30)) (.fin p30))
                (.fin 100)) ++ "%\n" ++
            "7-Day Price Change: " ++
              fmtFF 2 (ffMul (ffDiv (.fin (qsub current p7)) (.fin p7))
                (.fin 100)) ++ "%\n"
          else "")
      let start_idx :=
        if 24 < data.ohlc_data.length then data.ohlc_data.length - 24 else 0
      let recent ← optMapM (fun r => do
        let d ← msDate r.1
        pure (d ++ ": O=" ++ money r.2.1 ++ " H=" ++ money r.2.2.1 ++
          " L=" ++ money r.2.2.2.1 ++ " C=" ++ money r.2.2.2.2.1 ++
          " V=" ++ fmtRatFixed 2 r.2.2.2.2.2 ++ "\n")) (data.ohlc_data.drop start_idx)
      pure ("=== BITCOIN HISTORICAL DATA SUMMARY ===\n" ++
        "\n5 Highest Bitcoin Prices (All-Time):\n" ++ high5 ++
        "\n5 Lowest Bitcoin Prices (All-Time):\n" ++ low5 ++ stats ++
        "\n=== RECENT BITCOIN OHLCV DATA (LAST 24 RECORDS) ===\n" ++
        "Date,Open,High,Low,Close,Volume\n" ++ String.join recent)
  let tech ← calculate_technical_indicators sqrtf data
  let fg ← format_fear_greed_data fng
  pure (base ++ tech ++ fg)

/-! ## Concrete inputs used by witnesses and counterexamples -/

/-- Whether an `Except` value is a success. -/
def exIsOk {ε α : Type} : Except ε α → Bool
  | .ok _ => true
  | .error _ => false

/-- The klines carried by a page result (none for a failure). -/
def pageKlines : PageResult → List Kline
  | .ok l => l
  | _ => []

/-- Two candles with equal-length volumes: the OBV minimum of the
specification (2) is met, yet the engine emits no OBV section. -/
def c2data : CryptoData := ⟨[(0, 1), (1, 2)], [(0, 5), (1, 6)], [], [], [], []⟩

/-- Twenty candles with a constant close: the Bollinger band width is zero,
so the unguarded position division produces a non-finite value. -/
def c3data : CryptoData :=
  ⟨(List.range 20).map (fun i => (qofNat i, 100)), [], [], [], [], []⟩

/-- A `CryptoData` with every sequence empty. -/
def emptyData : CryptoData := ⟨[], [], [], [], [], []⟩

/-- A well-formed sentiment point. -/
def goodFng : FearGreedData := ⟨"50", "Neutral", "1700000000"⟩

/-- A sentiment point whose timestamp is not a number: the assembly's
`timestamp.parse::<i64>().unwrap()` panics on it. -/
def badFng : FearGreedData := ⟨"50", "Neutral", "notanumber"⟩

/-- A first page with two rows sharing open time 1: the merge sorts but
does not deduplicate. -/
def c1page : List Kline :=
  [[.num 1, .num 0, .num 0, .num 0, .num 7, .num 2, .num 3],
   [.num 1, .num 0, .num 0, .num 0, .num 8, .num 2, .num 3]]

/-- The open times of the series merged from `c1page`. -/
def c1prices : List ℚ :=
  match (fetch_bitcoin_data 0 10 (.ok c1page) []).1 with
  | .ok d => d.prices.map Prod.fst
  | .error _ => []

/-- A two-row page with distinct open times, fetched out of order. -/
def c1wpage : List Kline :=
  [[.num 2, .num 0, .num 0, .num 0, .num 7, .num 2, .num 3],
   [.num 1, .num 0, .num 0, .num 0, .num 8, .num 2, .num 3]]

/-- The fetch outcome over `c1wpage`. -/
def c1wOut : Except String CryptoData × List (ℕ × ℕ) :=
  fetch_bitcoin_data 0 10 (.ok c1wpage) []

/-- The merged series fetched from `c1wpage`. -/
def c1wData : CryptoData :=
  match c1wOut.1 with
  | .ok d => d
  | .error _ => emptyData

/-- A full-width kline row whose close time is 5. -/
def c6k : Kline := [.num 0, .num 0, .num 0, .num 0, .num 0, .num 0, .num 5]

/-- A page of exactly 1000 rows whose last close time is 5: it keeps the
pagination running but never advances the requested start past 6. -/
def c6page : List Kline := List.replicate 1000 c6k

/-- A single-row page whose close time is 10 (used to instantiate the
request-count bound). -/
def w6page : List Kline :=
  [[.num 0, .num 0, .num 0, .num 0, .num 0, .num 0, .num 10]]

/-- Fourteen strictly increasing closes: enough history for the RSI. -/
def d14 : CryptoData :=
  ⟨(List.range 14).map (fun i => (qofNat i, qofNat (i + 1))), [], [], [], [], []⟩

/-- The first of the displayed RSI values over `d14`. -/
def rsiW : ℚ := ((technicalIndicators ratSqrt d14).rsi.getD []).getD 0 0

/-- Thirty-five constant closes: enough history for the MACD. -/
def d35 : CryptoData :=
  ⟨(List.range 35).map (fun i => (qofNat i, 1)), [], [], [], [], []⟩

/-- The first of the displayed MACD values over `d35`. -/
def macdW : MacdVal := ((technicalIndicators ratSqrt d35).macd.getD []).getD 0 ⟨1, 1, 1⟩

/-- Twenty candles: enough history for SMA, EMA, RSI and the bands, not for
the MACD or the 200-period variants. -/
def d20w : CryptoData :=
  ⟨(List.range 20).map (fun i => (qofNat i, qofNat (i + 1))), [], [], [], [], []⟩

/-- Five candles with equal-length volumes: the OBV section is emitted. -/
def d5v : CryptoData :=
  ⟨[(0, 10), (1, 12), (2, 11), (3, 11), (4, 13)],
   [(0, 100), (1, 100), (2, 100), (3, 100), (4, 100)], [], [], [], []⟩

/-- The OBV section computed over `d5v`. -/
def obvW : ObvSection :=
  (technicalIndicators ratSqrt d5v).obv.getD ⟨[], FF.fin 0⟩

/-! ## General lemmas: the kernel arithmetic agrees with Mathlib's -/

theorem qadd_eq (a b : ℚ) : qadd a b = a + b := by
  rw [qadd, Rat.mkRat_eq_div]
  push_cast
  conv_rhs => rw [← Rat.num_div_den a, ← Rat.num_div_den b,
    div_add_div _ _ (by exact_mod_cast a.den_nz) (by exact_mod_cast b.den_nz)]
  ring_nf

theorem qneg_eq (a : ℚ) : qneg a = -a := by
  rw [qneg, Rat.mkRat_eq_div]
  push_cast
  rw [neg_div, Rat.num_div_den]

theorem qsub_eq (a b : ℚ) : qsub a b = a - b := by
  rw [qsub, qadd_eq, qneg_eq, sub_eq_add_neg]

theorem qmul_eq (a b : ℚ) : qmul a b = a * b := by
  rw [qmul, Rat.mkRat_eq_div]
  push_cast
  conv_rhs => rw [← Rat.num_div_den a, ← Rat.num_div_den b, div_mul_div_comm]

theorem qdiv_eq (a b : ℚ) : qdiv a b = a / b := by
  rw [qdiv]
  by_cases hb : b = 0
  · subst hb; simp [Rat.divInt_eq_div]
  · have hbn : (b.num : ℚ) ≠ 0 := by exact_mod_cast Rat.num_ne_zero.mpr hb
    have had : (a.den : ℚ) ≠ 0 := by exact_mod_cast a.den_nz
    have hbd : (b.den : ℚ) ≠ 0 := by exact_mod_cast b.den_nz
    rw [Rat.divInt_eq_div]
    push_cast
    conv_rhs => rw [← Rat.num_div_den a, ← Rat.num_div_den b]
    field_simp

theorem qofNat_eq (n : ℕ) : qofNat n = (n : ℚ) := by
  rw [qofNat, Rat.mkRat_eq_div]; simp

theorem qle_iff (a b : ℚ) : qle a b ↔ a ≤ b := Rat.le_def.symm

theorem qlt_iff (a b : ℚ) : qlt a b ↔ a < b := Rat.lt_def.symm

theorem qmax_eq (a b : ℚ) : qmax a b = max a b := by
  rw [qmax, max_def]
  rcases lt_trichotomy a b with h | h | h
  · rw [if_pos ((qlt_iff a b).mpr h), if_pos h.le]
  · subst h; simp
  · rw [if_neg (by rw [qlt_iff]; exact not_lt.mpr h.le), if_neg (not_le.mpr h)]

theorem qmin_eq (a b : ℚ) : qmin a b = min a b := by
  rw [qmin, min_def]
  rcases lt_trichotomy a b with h | h | h
  · rw [if_neg (by rw [qlt_iff]; exact not_lt.mpr h.le), if_pos h.le]
  · subst h; simp
  · rw [if_pos ((qlt_iff b a).mpr h), if_neg (not_le.mpr h)]

theorem qabs_eq (a : ℚ) : qabs a = |a| := by
  rw [qabs]
  by_cases h : a < 0
  · rw [if_pos ((qlt_iff a 0).mpr h), qneg_eq, abs_of_neg h]
  · rw [if_neg (by rw [qlt_iff]; exact h), abs_of_nonneg (not_lt.mp h)]

theorem qsum_eq (l : List ℚ) : qsum l = l.sum := by
  rw [qsum]
  have h : ∀ a : ℚ, l.foldl qadd a = a + l.sum := by
    induction l with
    | nil => intro a; simp
    | cons x xs ih => intro a; simp [List.foldl_cons, qadd_eq, ih, add_assoc]
  simpa using h 0

/-! ## General lemmas: forward passes -/

theorem scanVals_length {σ α : Type} (step : σ → ℚ → σ × α) :
    ∀ (xs : List ℚ) (s : σ), (scanVals step s xs).length = xs.length := by
  intro xs
  induction xs with
  | nil => intro s; rfl
  | cons x xs ih => intro s; simp [scanVals, ih]

theorem scanVals_mem {σ α : Type} (step : σ → ℚ → σ × α)
    (P : σ → Prop) (Q : α → Prop)
    (hstep : ∀ s x, P s → P (step s x).1 ∧ Q (step s x).2) :
    ∀ (xs : List ℚ) (s : σ), P s → ∀ a ∈ scanVals step s xs, Q a := by
  intro xs
  induction xs with
  | nil => intro s _ a ha; simp [scanVals] at ha
  | cons x xs ih =>
    intro s hs a ha
    simp only [scanVals, List.mem_cons] at ha
    rcases ha with rfl | ha
    · exact (hstep s x hs).2
    · exact ih _ (hstep s x hs).1 a ha

theorem lastN_length {α : Type} (n : ℕ) (l : List α) :
    (lastN n l).length = min n l.length := by
  simp [lastN]
  omega

theorem lastN_subset {α : Type} (n : ℕ) (l : List α) : lastN n l ⊆ l :=
  List.drop_subset _ l

/-! ## C7: the OBV running sum -/

theorem obvLoop_cons (prev a : ℚ) (pv : ℚ × ℚ) (rest : List (ℚ × ℚ)) :
    obvLoop prev a (pv :: rest) =
      (if prev < pv.1 then a + pv.2 else if pv.1 < prev then a - pv.2 else a) ::
        obvLoop pv.1
          (if prev < pv.1 then a + pv.2 else if pv.1 < prev then a - pv.2 else a)
          rest := by
  simp only [obvLoop, qadd_eq, qsub_eq, qlt_iff]

theorem obvLoop_length :
    ∀ (l : List (ℚ × ℚ)) (p a : ℚ), (obvLoop p a l).length = l.length := by
  intro l
  induction l with
  | nil => intro p a; rfl
  | cons pv rest ih => intro p a; rw [obvLoop_cons]; simp [ih]

theorem obvLoop_getD_zero (prev a : ℚ) (pv : ℚ × ℚ) (rest : List (ℚ × ℚ)) :
    (obvLoop prev a (pv :: rest)).getD 0 0 =
      a + (if prev < pv.1 then pv.2 else if pv.1 < prev then -pv.2 else 0) := by
  rw [obvLoop_cons, List.getD_cons_zero]
  split_ifs <;> ring

theorem obvLoop_getD_succ :
    ∀ (l : List (ℚ × ℚ)) (prev a : ℚ) (i : ℕ), i + 1 < l.length →
      (obvLoop prev a l).getD (i + 1) 0 =
        (obvLoop prev a l).getD i 0 +
          (if (l.getD i (0, 0)).1 < (l.getD (i + 1) (0, 0)).1 then
            (l.getD (i + 1) (0, 0)).2
          else if (l.getD (i + 1) (0, 0)).1 < (l.getD i (0, 0)).1 then
            -(l.getD (i + 1) (0, 0)).2
          else 0) := by
  intro l
  induction l with
  | nil => intro prev a i h; simp at h
  | cons pv rest ih =>
    intro prev a i h
    match i with
    | 0 =>
      match rest, h with
      | y :: rest2, _ =>
        rw [obvLoop_cons]
        simp only [List.getD_cons_succ, List.getD_cons_zero]
        rw [obvLoop_getD_zero]
    | j + 1 =>
      have hb : j + 1 < rest.length := by
        simpa using Nat.lt_of_succ_lt_succ h
      rw [obvLoop_cons]
      simp only [List.getD_cons_succ]
      exact ih pv.1 _ j hb

theorem zip_getD (l m : List ℚ) (i : ℕ) (hl : i < l.length) (hm : i < m.length) :
    (l.zip m).getD i (0, 0) = (l.getD i 0, m.getD i 0) := by
  have hz : i < (l.zip m).length := by
    rw [List.length_zip]; omega
  rw [List.getD_eq_getElem _ _ hz, List.getD_eq_getElem _ _ hl,
    List.getD_eq_getElem _ _ hm]
  exact List.getElem_zip

/-- C7 (confirmed): for a price series with an equal-length volume series,
the OBV sequence is the running sum starting at 0 that adds the volume when
the close rose, subtracts it when it fell, and is unchanged when flat; in
particular on closes [10, 12, 11, 11, 13] with volumes [100, 100, 100, 100,
100] it is [0, 100, 0, 0, 100]. -/
theorem obv_is_running_sum (ps vs : List ℚ)
    (hlen : ps.length = vs.length) (hne : ps ≠ []) :
    (obvValues ps vs).length = ps.length ∧
    (obvValues ps vs).getD 0 0 = 0 ∧
    (∀ i : ℕ, i + 1 < ps.length →
      (obvValues ps vs).getD (i + 1) 0 = (obvValues ps vs).getD i 0 +
        (if ps.getD i 0 < ps.getD (i + 1) 0 then vs.getD (i + 1) 0
         else if ps.getD (i + 1) 0 < ps.getD i 0 then -(vs.getD (i + 1) 0)
         else 0)) ∧
    obvValues [10, 12, 11, 11, 13] [100, 100, 100, 100, 100] =
      [0, 100, 0, 0, 100] := by
  match ps, vs with
  | [], _ => exact absurd rfl hne
  | p0 :: ps2, [] => simp at hlen
  | p0 :: ps2, v0 :: vs2 =>
    have hlen2 : ps2.length = vs2.length := by simpa using hlen
    have hzl : (ps2.zip vs2).length = ps2.length := by
      rw [List.length_zip]; omega
    have hval : obvValues (p0 :: ps2) (v0 :: vs2) = 0 :: obvLoop p0 0 (ps2.zip vs2) := rfl
    refine ⟨?_, ?_, ?_, by decide⟩
    · rw [hval]
      simp [obvLoop_length, hzl]
    · rw [hval]; rfl
    · intro i hi
      rw [hval]
      match i with
      | 0 =>
        have h2 : 1 < (p0 :: ps2).length := hi
        match ps2, vs2, hlen2, hzl with
        | x :: ps3, w :: vs3, _, _ =>
          simp only [List.getD_cons_succ, List.getD_cons_zero, List.zip_cons_cons]
          rw [obvLoop_getD_zero]
      | j + 1 =>
        have hj : j + 1 < (ps2.zip vs2).length := by
          rw [hzl]
          simpa using Nat.lt_of_succ_lt_succ hi
        have hj2 : j + 1 < ps2.length := by rwa [hzl] at hj
        have hjv : j + 1 < vs2.length := by omega
        simp only [List.getD_cons_succ]
        rw [obvLoop_getD_succ _ _ _ j hj,
          zip_getD _ _ j (by omega) (by omega),
          zip_getD _ _ (j + 1) hj2 hjv]

/-- Witness for C7: the concrete conjunct at the claim's example series. -/
theorem obv_is_running_sum_witness :
    obvValues [10, 12, 11, 11, 13] [100, 100, 100, 100, 100] =
      [0, 100, 0, 0, 100] :=
  (obv_is_running_sum [10, 12, 11, 11, 13] [100, 100, 100, 100, 100]
    (by decide) (by decide)).2.2.2

/-! ## C8: histogram = MACD − signal -/

/-- C8 (confirmed): every computed MACD period has
histogram = line − signal, exactly. -/
theorem macd_histogram_eq (sqrtf : ℚ → ℚ) (data : CryptoData)
    (l : List MacdVal)
    (h : (technicalIndicators sqrtf data).macd = some l) :
    ∀ m ∈ l, m.histogram = m.macd - m.signal := by
  have hl : l = lastN 5 (macdSeries (data.prices.map Prod.snd)) := by
    simp only [technicalIndicators] at h
    split at h
    · exact (Option.some.inj h).symm
    · exact absurd h (by simp)
  intro m hm
  rw [hl] at hm
  have hm2 := lastN_subset 5 _ hm
  exact scanVals_mem macdStep (fun _ => True)
    (fun m => m.histogram = m.macd - m.signal)
    (fun s x _ => ⟨trivial, by simp [macdStep, qsub_eq]⟩)
    _ _ trivial m hm2

/-- Witness for C8: the first displayed MACD value over 35 candles. -/
theorem macd_histogram_eq_witness : macdW.histogram = macdW.macd - macdW.signal :=
  macd_histogram_eq ratSqrt d35 ((technicalIndicators ratSqrt d35).macd.getD [])
    (by decide) macdW (by decide)

/-! ## C9: RSI stays within [0, 100] -/

/-- C9 (confirmed): every computed RSI value lies in [0, 100]. -/
theorem rsi_in_range (sqrtf : ℚ → ℚ) (data : CryptoData) (l : List ℚ)
    (h : (technicalIndicators sqrtf data).rsi = some l) :
    ∀ v ∈ l, 0 ≤ v ∧ v ≤ 100 := by
  have hl : l = lastN 5 (rsiSeries 14 (data.prices.map Prod.snd)) := by
    simp only [technicalIndicators] at h
    split at h
    · exact (Option.some.inj h).symm
    · exact absurd h (by simp)
  intro v hv
  rw [hl] at hv
  have hv2 := lastN_subset 5 _ hv
  refine scanVals_mem (rsiStep 14)
    (fun st => ∀ p g lo, st = some (p, g, lo) → 0 ≤ g ∧ 0 ≤ lo)
    (fun v => 0 ≤ v ∧ v ≤ 100) ?_ _ _ (by simp) v hv2
  intro s x hP
  match s with
  | none =>
    constructor
    · intro p g lo heq
      simp only [rsiStep, Option.some.injEq, Prod.mk.injEq] at heq
      constructor
      · rw [← heq.2.1]
      · rw [← heq.2.2]
    · simp only [rsiStep]
      norm_num
  | some (prev, g, lo) =>
    have hg0 : 0 ≤ g := (hP prev g lo rfl).1
    have hl0 : 0 ≤ lo := (hP prev g lo rfl).2
    simp only [rsiStep, qdiv_eq, qadd_eq, qmul_eq, qsub_eq, qmax_eq, qofNat_eq,
      Nat.cast_ofNat]
    have hg2 : 0 ≤ (g * ((14 : ℚ) - 1) + max (x - prev) 0) / 14 :=
      div_nonneg
        (add_nonneg (mul_nonneg hg0 (by norm_num)) (le_max_right _ 0))
        (by norm_num)
    have hl2 : 0 ≤ (lo * ((14 : ℚ) - 1) + max (prev - x) 0) / 14 :=
      div_nonneg
        (add_nonneg (mul_nonneg hl0 (by norm_num)) (le_max_right _ 0))
        (by norm_num)
    constructor
    · intro p g2 lo2 heq
      simp only [Option.some.injEq, Prod.mk.injEq] at heq
      constructor
      · rw [← heq.2.1]; exact hg2
      · rw [← heq.2.2]; exact hl2
    · set a := (g * ((14 : ℚ) - 1) + max (x - prev) 0) / 14 with ha
      set b := (lo * ((14 : ℚ) - 1) + max (prev - x) 0) / 14 with hb
      split_ifs with hz
      · norm_num
      · have hne : a + b ≠ 0 := (Rat.num_ne_zero).mp hz
        have hpos : 0 < a + b := lt_of_le_of_ne (add_nonneg hg2 hl2) (Ne.symm hne)
        constructor
        · exact div_nonneg (mul_nonneg (by norm_num) hg2) hpos.le
        · rw [div_le_iff₀ hpos]
          nlinarith [hl2]

/-- Witness for C9: the first displayed RSI value over fourteen strictly
increasing closes. -/
theorem rsi_in_range_witness : 0 ≤ rsiW ∧ rsiW ≤ 100 :=
  rsi_in_range ratSqrt d14 ((technicalIndicators ratSqrt d14).rsi.getD [])
    (by decide) rsiW (by decide)

/-! ## C2: gating by minimum history length -/

theorem obvValues_length (ps vs : List ℚ) (h : ps.length = vs.length) :
    (obvValues ps vs).length = ps.length := by
  match ps, vs with
  | [], [] => rfl
  | [], _ :: _ => simp at h
  | _ :: _, [] => simp at h
  | p0 :: ps2, v0 :: vs2 =>
    have h2 : ps2.length = vs2.length := by simpa using h
    simp [obvValues, obvLoop_length, List.length_zip]
    omega

theorem atrGo_ne_nil (highs lows prices : List ℚ) (n : ℕ) :
    ∀ (idxs : List ℕ) (st : Option ℚ),
      (∃ i ∈ idxs, i < highs.length ∧ i < lows.length ∧ n - 5 ≤ i) →
      atrGo highs lows prices n st idxs ≠ [] := by
  intro idxs
  induction idxs with
  | nil => intro st h; simp at h
  | cons i rest ih =>
    intro st h
    by_cases hg : i < highs.length ∧ i < lows.length
    · by_cases hr : n - 5 ≤ i
      · simp [atrGo, hg, hr]
      · rcases h with ⟨j, hj, hjc⟩
        rcases List.mem_cons.mp hj with rfl | hjr
        · exact absurd hjc.2.2 hr
        · simpa [atrGo, hg, hr] using ih _ ⟨j, hjr, hjc⟩
    · rcases h with ⟨j, hj, hjc⟩
      rcases List.mem_cons.mp hj with rfl | hjr
      · exact absurd ⟨hjc.1, hjc.2.1⟩ hg
      · simpa [atrGo, hg] using ih _ ⟨j, hjr, hjc⟩

/-- C2 (corrected): each indicator is gated by a minimum history length and
omitted (not an error) below it. The minimums in the code are: SMA/EMA 20
(with the 50- and 200-period variants requiring 200), RSI 14, MACD 35,
Bollinger bands 20, ATR 14 — but OBV requires 5 candles (not 2) besides the
equal-length volume series, and support/resistance is always emitted, even
for an empty series (with the placeholder values (0, 0)). The high/low
hypotheses state the data-model invariant that the parallel sequences are
absent or of equal length. -/
theorem indicator_gating (sqrtf : ℚ → ℚ) (data : CryptoData)
    (hh : data.high_prices = [] ∨ data.high_prices.length = data.prices.length)
    (hl : data.low_prices = [] ∨ data.low_prices.length = data.prices.length) :
    ((technicalIndicators sqrtf data).sma.isSome = true ↔
      20 ≤ data.prices.length) ∧
    ((∃ s, (technicalIndicators sqrtf data).sma = some s ∧ s.isLong = true) ↔
      200 ≤ data.prices.length) ∧
    ((technicalIndicators sqrtf data).ema.isSome = true ↔
      20 ≤ data.prices.length) ∧
    ((∃ s, (technicalIndicators sqrtf data).ema = some s ∧ s.isLong = true) ↔
      200 ≤ data.prices.length) ∧
    ((technicalIndicators sqrtf data).rsi.isSome = true ↔
      14 ≤ data.prices.length) ∧
    ((technicalIndicators sqrtf data).macd.isSome = true ↔
      35 ≤ data.prices.length) ∧
    ((technicalIndicators sqrtf data).bb.isSome = true ↔
      20 ≤ data.prices.length) ∧
    ((technicalIndicators sqrtf data).obv.isSome = true ↔
      (5 ≤ data.prices.length ∧ data.volumes.length = data.prices.length)) ∧
    ((technicalIndicators sqrtf data).atr.isSome = true ↔
      14 ≤ data.prices.length) ∧
    (data.prices = [] →
      (technicalIndicators sqrtf data).support_resistance = (0, 0)) := by
  have hhl : (if data.high_prices.isEmpty then data.prices.map Prod.snd
      else data.high_prices.map Prod.snd).length = data.prices.length := by
    by_cases he : data.high_prices.isEmpty
    · simp [he]
    · rw [if_neg he, List.length_map]
      rcases hh with h | h
      · rw [h] at he; simp at he
      · exact h
  have hll : (if data.low_prices.isEmpty then data.prices.map Prod.snd
      else data.low_prices.map Prod.snd).length = data.prices.length := by
    by_cases he : data.low_prices.isEmpty
    · simp [he]
    · rw [if_neg he, List.length_map]
      rcases hl with h | h
      · rw [h] at he; simp at he
      · exact h
  refine ⟨?_, ?_, ?_, ?_, ?_, ?_, ?_, ?_, ?_, ?_⟩
  · simp only [technicalIndicators, List.length_map]
    by_cases h200 : 200 ≤ data.prices.length
    · simp [h200]; omega
    · by_cases h20 : 20 ≤ data.prices.length <;> simp [h200, h20]
  · simp only [technicalIndicators, List.length_map]
    by_cases h200 : 200 ≤ data.prices.length
    · simp [h200, SmaSection.isLong]
    · by_cases h20 : 20 ≤ data.prices.length <;>
        simp [h200, h20, SmaSection.isLong]
  · simp only [technicalIndicators, List.length_map]
    by_cases h200 : 200 ≤ data.prices.length
    · simp [h200]; omega
    · by_cases h20 : 20 ≤ data.prices.length <;> simp [h200, h20]
  · simp only [technicalIndicators, List.length_map]
    by_cases h200 : 200 ≤ data.prices.length
    · simp [h200, EmaSection.isLong]
    · by_cases h20 : 20 ≤ data.prices.length <;>
        simp [h200, h20, EmaSection.isLong]
  · simp only [technicalIndicators, List.length_map]
    by_cases h14 : 14 ≤ data.prices.length <;> simp [h14]
  · simp only [technicalIndicators, List.length_map]
    by_cases h35 : 35 ≤ data.prices.length <;> simp [h35]
  · simp only [technicalIndicators, List.length_map]
    by_cases h20 : 20 ≤ data.prices.length <;> simp [h20]
  · simp only [technicalIndicators, List.length_map]
    split_ifs with hgate h5o
    · simp only [Option.isSome_some, true_iff]
      have hlen : (data.prices.map Prod.snd).length =
          (data.volumes.map Prod.snd).length := by
        simp only [List.length_map]; omega
      have hov := obvValues_length _ _ hlen
      rw [hov, List.length_map] at h5o
      exact ⟨h5o, by omega⟩
    · simp only [Option.isSome_none, Bool.false_eq_true, false_iff, not_and]
      intro h5 hveq
      exfalso
      apply h5o
      have hlen : (data.prices.map Prod.snd).length =
          (data.volumes.map Prod.snd).length := by
        simp only [List.length_map]; omega
      rw [obvValues_length _ _ hlen, List.length_map]
      exact h5
    · simp only [Option.isSome_none, Bool.false_eq_true, false_iff, not_and]
      intro h5 hveq
      exfalso
      apply hgate
      have hp : data.prices ≠ [] := by
        intro h; rw [h] at h5; simp at h5
      have hv : data.volumes ≠ [] := by
        intro h; rw [h] at hveq; simp at hveq; omega
      refine ⟨by simp [hp], by simp [hv], by omega⟩
  · simp only [technicalIndicators, List.length_map]
    set H := if data.high_prices.isEmpty then data.prices.map Prod.snd
      else data.high_prices.map Prod.snd with hHdef
    set L := if data.low_prices.isEmpty then data.prices.map Prod.snd
      else data.low_prices.map Prod.snd with hLdef
    split_ifs with hgate hlen1
    · simp only [Option.isSome_some, true_iff]
      exact hgate.2.2
    · exfalso
      apply hlen1
      have h14 : 14 ≤ data.prices.length := hgate.2.2
      have hne := atrGo_ne_nil H L
        (data.prices.map Prod.snd) data.prices.length
        (List.range' 1 (data.prices.length - 1)) none
        ⟨data.prices.length - 1,
          by rw [List.mem_range'_1]; omega,
          by rw [hHdef, hhl]; omega,
          by rw [hLdef, hll]; omega,
          by omega⟩
      have hpos := List.length_pos.mpr hne
      omega
    · simp only [Option.isSome_none, Bool.false_eq_true, false_iff]
      intro h14
      exact hgate ⟨by rw [hHdef, hhl]; exact h14, by rw [hLdef, hll]; exact h14,
        h14⟩
  · intro hp
    simp [technicalIndicators, hp, calculate_support_resistance]

/-- C2 counterexample: a two-candle series with an equal-length volume
series meets the claimed OBV minimum of 2, yet the OBV section is absent. -/
theorem indicator_gating_cx :
    c2data.prices.length = 2 ∧
    c2data.volumes.length = c2data.prices.length ∧
    (technicalIndicators ratSqrt c2data).obv = none := by
  decide

/-- Witness for C2: twenty candles make the Bollinger section present. -/
theorem indicator_gating_witness :
    (technicalIndicators ratSqrt d20w).bb.isSome = true :=
  (indicator_gating ratSqrt d20w (Or.inl rfl) (Or.inl rfl)).2.2.2.2.2.2.1.mpr
    (by decide)

/-! ## C3: guarded and unguarded divisions -/

theorem ffGuard (a c : ℚ) (hc : 1 ≤ c) :
    (ffMul (ffDiv (.fin a) (.fin c)) (.fin 100)).isFin = true := by
  have hne : c.num ≠ 0 := by
    rw [Rat.num_ne_zero]
    intro h0
    rw [h0] at hc
    norm_num at hc
  simp [ffDiv, hne, ffMul, FF.isFin]

/-- C3 (corrected): the OBV percent-change divisions are guarded by the
minimum denominator (`max(|OBV|, 1)`) and always produce finite values; the
claim's universal statement fails elsewhere (see the counterexample: the
Bollinger position division is unguarded). -/
theorem obv_change_guarded (sqrtf : ℚ → ℚ) (data : CryptoData) (s : ObvSection)
    (h : (technicalIndicators sqrtf data).obv = some s) :
    (∀ e ∈ s.entries, e.change.isFin = true) ∧
    s.overall_change.isFin = true := by
  simp only [technicalIndicators] at h
  split at h
  · split at h
    · have hs := Option.some.inj h
      constructor
      · intro e he
        rw [← hs] at he
        simp only [obvEntries, List.mem_map] at he
        obtain ⟨i, _, rfl⟩ := he
        apply ffGuard
        rw [qmax_eq]
        exact le_max_right _ _
      · rw [← hs]
        apply ffGuard
        rw [qmax_eq]
        exact le_max_right _ _
    · exact absurd h (by simp)
  · exact absurd h (by simp)

/-- C3 counterexample: over twenty candles with a constant close the band
width is zero and the displayed Bollinger position is non-finite (the
division is not guarded). -/
theorem no_nonfinite_cx :
    ((technicalIndicators ratSqrt c3data).bb.getD []).any
      (fun e => !e.position.isFin) = true := by
  decide

/-- Witness for C3: the OBV section over five candles with volumes has a
finite overall change. -/
theorem obv_change_guarded_witness : obvW.overall_change.isFin = true :=
  (obv_change_guarded ratSqrt d5v obvW (by decide)).2

/-! ## C1: ordering of the merged series -/

theorem mem_insertLe {α : Type} (le : α → α → Bool) (x : α) :
    ∀ (l : List α) (a : α), a ∈ insertLe le x l ↔ a = x ∨ a ∈ l := by
  intro l
  induction l with
  | nil => intro a; simp [insertLe]
  | cons y ys ih =>
    intro a
    simp only [insertLe]
    split_ifs
    · simp only [List.mem_cons]
    · simp only [List.mem_cons, ih]
      tauto

theorem mem_sortByComparator {α : Type} (le : α → α → Bool) :
    ∀ (l : List α) (a : α), a ∈ sortByComparator le l ↔ a ∈ l := by
  intro l
  induction l with
  | nil => intro a; simp [sortByComparator]
  | cons x xs ih =>
    intro a
    simp only [sortByComparator, mem_insertLe, ih, List.mem_cons]

theorem pairwise_insertLe {α : Type} (le : α → α → Bool) (x : α) :
    ∀ (l : List α),
      l.Pairwise (fun a b => le a b = true) →
      (∀ b ∈ l, le x b = true ∨ le b x = true) →
      (∀ b ∈ l, ∀ c ∈ l, le x b = true → le b c = true → le x c = true) →
      (insertLe le x l).Pairwise (fun a b => le a b = true) := by
  intro l
  induction l with
  | nil => intro _ _ _; simp [insertLe]
  | cons y ys ih =>
    intro hp htot htrans
    simp only [insertLe]
    split_ifs with hxy
    · refine List.Pairwise.cons ?_ hp
      intro b hb
      rcases List.mem_cons.mp hb with rfl | hbys
      · exact hxy
      · exact htrans y (by simp) b (by simp [hbys]) hxy
          ((List.pairwise_cons.mp hp).1 b hbys)
    · have hyx : le y x = true := by
        rcases htot y (by simp) with h | h
        · exact absurd h hxy
        · exact h
      refine List.Pairwise.cons ?_ ?_
      · intro b hb
        rcases (mem_insertLe le x ys b).mp hb with rfl | hbys
        · exact hyx
        · exact (List.pairwise_cons.mp hp).1 b hbys
      · exact ih (List.pairwise_cons.mp hp).2
          (fun b hb => htot b (by simp [hb]))
          (fun b hb c hc => htrans b (by simp [hb]) c (by simp [hc]))

theorem pairwise_sortByComparator {α : Type} (le : α → α → Bool) :
    ∀ (l : List α),
      (∀ a ∈ l, ∀ b ∈ l, le a b = true ∨ le b a = true) →
      (∀ a ∈ l, ∀ b ∈ l, ∀ c ∈ l,
        le a b = true → le b c = true → le a c = true) →
      (sortByComparator le l).Pairwise (fun a b => le a b = true) := by
  intro l
  induction l with
  | nil => intro _ _; simp [sortByComparator]
  | cons x xs ih =>
    intro htot htrans
    simp only [sortByComparator]
    apply pairwise_insertLe
    · exact ih
        (fun a ha b hb => htot a (by simp [ha]) b (by simp [hb]))
        (fun a ha b hb c hc =>
          htrans a (by simp [ha]) b (by simp [hb]) c (by simp [hc]))
    · intro b hb
      have hbx := (mem_sortByComparator le xs b).mp hb
      exact htot x (by simp) b (by simp [hbx])
    · intro b hb c hc
      have hbx := (mem_sortByComparator le xs b).mp hb
      have hcx := (mem_sortByComparator le xs c).mp hc
      exact htrans x (by simp) b (by simp [hbx]) c (by simp [hcx])

theorem sortKlines_sorted (ks : List Kline) (hne : ∀ k ∈ ks, k ≠ []) :
    ((sortKlines ks).map (fun k => parse_to_f64 (k.getD 0 .other))).Pairwise
      (· ≤ ·) := by
  rw [List.pairwise_map]
  have hlen : ∀ k ∈ ks, 0 < k.length := by
    intro k hk
    exact List.length_pos.mpr (hne k hk)
  have hp := pairwise_sortByComparator klineLe ks
    (by
      intro a ha b hb
      rw [klineLe, klineLe, if_pos ⟨hlen a ha, hlen b hb⟩,
        if_pos ⟨hlen b hb, hlen a ha⟩]
      rcases le_total (parse_to_f64 (a.getD 0 .other))
        (parse_to_f64 (b.getD 0 .other)) with hab | hba
      · exact Or.inl (decide_eq_true ((qle_iff _ _).mpr hab))
      · exact Or.inr (decide_eq_true ((qle_iff _ _).mpr hba)))
    (by
      intro a ha b hb c hc hab hbc
      rw [klineLe, if_pos ⟨hlen a ha, hlen b hb⟩] at hab
      rw [klineLe, if_pos ⟨hlen b hb, hlen c hc⟩] at hbc
      rw [klineLe, if_pos ⟨hlen a ha, hlen c hc⟩]
      exact decide_eq_true ((qle_iff _ _).mpr
        (le_trans ((qle_iff _ _).mp (of_decide_eq_true hab))
          ((qle_iff _ _).mp (of_decide_eq_true hbc))))
    )
  refine hp.imp_of_mem ?_
  intro a b ha hb hle
  have ha2 := hlen a ((mem_sortByComparator klineLe ks a).mp ha)
  have hb2 := hlen b ((mem_sortByComparator klineLe ks b).mp hb)
  rw [klineLe, if_pos ⟨ha2, hb2⟩] at hle
  exact (qle_iff _ _).mp (of_decide_eq_true hle)

theorem paginationLoop_mem (e : ℕ) :
    ∀ (rs : List PageResult) (ns : ℕ) (acc all : List Kline),
      (paginationLoop e rs ns acc).1 = Except.ok all →
      ∀ k ∈ all, k ∈ acc ∨ ∃ r ∈ rs, k ∈ pageKlines r := by
  intro rs
  induction rs with
  | nil =>
    intro ns acc all h k hk
    left
    by_cases hlt : ns < e
    · simp [paginationLoop, hlt] at h
      subst h; exact hk
    · simp [paginationLoop, hlt] at h
      subst h; exact hk
  | cons r rest ih =>
    intro ns acc all h k hk
    by_cases hlt : ns < e
    · cases r with
      | netFail => simp [paginationLoop, hlt] at h
      | httpFail =>
        simp [paginationLoop, hlt] at h
        subst h; exact Or.inl hk
      | ok additional =>
        by_cases hemp : additional.isEmpty
        · simp [paginationLoop, hlt, hemp] at h
          subst h; exact Or.inl hk
        · rcases hlast : additional.getLast? with _ | nextLast
          · simp [paginationLoop, hlt, hemp, hlast] at h
            subst h; exact Or.inl hk
          · by_cases hlen : 6 < nextLast.length
            · simp only [paginationLoop, if_pos hlt, if_neg hemp, hlast,
                if_pos hlen] at h
              rcases ih _ _ all h k hk with hin | ⟨r2, hr2, hk2⟩
              · rcases List.mem_append.mp hin with h1 | h2
                · exact Or.inl h1
                · exact Or.inr ⟨.ok additional, by simp, h2⟩
              · exact Or.inr ⟨r2, by simp [hr2], hk2⟩
            · simp [paginationLoop, hlt, hemp, hlast, hlen] at h
              subst h; exact Or.inl hk
    · cases r with
      | netFail =>
        simp [paginationLoop, hlt] at h
        subst h; exact Or.inl hk
      | httpFail =>
        simp [paginationLoop, hlt] at h
        subst h; exact Or.inl hk
      | ok additional =>
        simp [paginationLoop, hlt] at h
        subst h; exact Or.inl hk

/-- C1 (corrected): the series merged by the fetch is sorted by open_time,
but only non-strictly: the code sorts and does not drop duplicate open_time
entries (see the counterexample). The hypothesis says every fetched row is
nonempty (the sort comparator treats empty rows as equal to everything, so
no order is guaranteed around them). -/
theorem fetch_merged_sorted (startTime endTime : ℕ) (first : PageResult)
    (rest : List PageResult) (d : CryptoData) (log : List (ℕ × ℕ))
    (hok : fetch_bitcoin_data startTime endTime first rest = (Except.ok d, log))
    (hne : ∀ r ∈ first :: rest, ∀ k ∈ pageKlines r, k ≠ []) :
    (d.prices.map Prod.fst).Pairwise (· ≤ ·) := by
  obtain ⟨all, hall, hd⟩ : ∃ all,
      (∀ k ∈ all, k ∈ pageKlines first ∨ ∃ r ∈ rest, k ∈ pageKlines r) ∧
      d = convert_binance_data (sortKlines all) := by
    cases first with
    | netFail => simp [fetch_bitcoin_data] at hok
    | httpFail => simp [fetch_bitcoin_data] at hok
    | ok klines =>
      simp only [fetch_bitcoin_data, Prod.mk.injEq] at hok
      obtain ⟨hmap, _⟩ := hok
      generalize hXdef : (if klines.length = 1000 then
          if 6 < (klines.getLastD []).length then
            paginationLoop endTime rest
              (ratToNat (parse_to_f64 ((klines.getLastD []).getD 6 .other)) + 1)
              klines
          else (Except.ok klines, [])
        else (Except.ok klines, ([] : List (ℕ × ℕ)))) = X at hmap
      rcases hx : X.1 with msg | all
      · rw [hx] at hmap
        simp [Except.map] at hmap
      · rw [hx] at hmap
        simp only [Except.map, Except.ok.injEq] at hmap
        refine ⟨all, ?_, hmap.symm⟩
        rw [← hXdef] at hx
        by_cases h1000 : klines.length = 1000
        · rw [if_pos h1000] at hx
          by_cases hlen : 6 < (klines.getLastD []).length
          · rw [if_pos hlen] at hx
            intro k hk
            exact paginationLoop_mem endTime rest _ klines all hx k hk
          · rw [if_neg hlen] at hx
            simp at hx
            intro k hk
            exact Or.inl (by rw [← hx] at hk; exact hk)
        · rw [if_neg h1000] at hx
          simp at hx
          intro k hk
          exact Or.inl (by rw [← hx] at hk; exact hk)
  subst hd
  have hsorted := sortKlines_sorted all (by
    intro k hk
    rcases hall k hk with h | ⟨r, hr, hk2⟩
    · exact hne first (by simp) k h
    · exact hne r (by simp [hr]) k hk2)
  simp only [convert_binance_data, List.map_map]
  rw [List.pairwise_map] at hsorted ⊢
  exact hsorted.filter _

/-- C1 counterexample: a page holding two rows with open time 1 merges into
a series whose open times are [1, 1] — not strictly ascending, duplicates
kept. -/
theorem fetch_merged_sorted_cx :
    c1prices = [1, 1] ∧
    ¬ List.Pairwise (fun a b : ℚ => a < b) c1prices := by
  decide

/-- Witness for C1: an out-of-order two-row page merges into a series
sorted by open time. -/
theorem fetch_merged_sorted_witness :
    (c1wData.prices.map Prod.fst).Pairwise (· ≤ ·) :=
  fetch_merged_sorted 0 10 (.ok c1wpage) [] c1wData c1wOut.2 (by rfl)
    (by decide)

/-! ## C4: failure policy of the fetch -/

theorem paginationLoop_isOk (e : ℕ) :
    ∀ (rs : List PageResult) (ns : ℕ) (acc : List Kline),
      (∀ r ∈ rs, r ≠ PageResult.netFail) →
      exIsOk (paginationLoop e rs ns acc).1 = true := by
  intro rs
  induction rs with
  | nil =>
    intro ns acc _
    by_cases hlt : ns < e <;> simp [paginationLoop, hlt, exIsOk]
  | cons r rest ih =>
    intro ns acc hnf
    by_cases hlt : ns < e
    · cases r with
      | netFail => exact absurd rfl (hnf .netFail (by simp))
      | httpFail => simp [paginationLoop, hlt, exIsOk]
      | ok additional =>
        by_cases hemp : additional.isEmpty
        · simp [paginationLoop, hlt, hemp, exIsOk]
        · rcases hlast : additional.getLast? with _ | nextLast
          · simp [paginationLoop, hlt, hemp, hlast, exIsOk]
          · by_cases hlen : 6 < nextLast.length
            · simp only [paginationLoop, if_pos hlt, if_neg hemp, hlast,
                if_pos hlen]
              exact ih _ _ (fun r2 hr2 => hnf r2 (by simp [hr2]))
            · simp [paginationLoop, hlt, hemp, hlast, hlen, exIsOk]
    · cases r with
      | netFail => simp [paginationLoop, hlt, exIsOk]
      | httpFail => simp [paginationLoop, hlt, exIsOk]
      | ok additional => simp [paginationLoop, hlt, exIsOk]

/-- C4 (corrected): a first-page failure is fatal; a later pagination page
with a non-success HTTP status is non-fatal and keeps the data accumulated
so far; and with no transport/decode failure among the later pages the
whole fetch succeeds. (A transport or decode failure on a later page is
fatal — see the counterexample — which is what the claim gets wrong.) -/
theorem fetch_failure_policy :
    (∀ (s e : ℕ) (rest : List PageResult),
      (fetch_bitcoin_data s e .httpFail rest).1 =
        Except.error ("API request failed with status")) ∧
    (∀ (e2 : ℕ) (rs : List PageResult) (ns : ℕ) (acc : List Kline),
      ns < e2 →
      paginationLoop e2 (.httpFail :: rs) ns acc =
        (Except.ok acc, [(ns, e2)])) ∧
    (∀ (s e : ℕ) (klines : List Kline) (rest : List PageResult),
      (∀ r ∈ rest, r ≠ PageResult.netFail) →
      exIsOk (fetch_bitcoin_data s e (.ok klines) rest).1 = true) := by
  refine ⟨?_, ?_, ?_⟩
  · intro s e rest; rfl
  · intro e2 rs ns acc h
    simp [paginationLoop, h]
  · intro s e klines rest hnf
    simp only [fetch_bitcoin_data]
    generalize hXdef : (if klines.length = 1000 then
        if 6 < (klines.getLastD []).length then
          paginationLoop e rest
            (ratToNat (parse_to_f64 ((klines.getLastD []).getD 6 .other)) + 1)
            klines
        else (Except.ok klines, [])
      else (Except.ok klines, ([] : List (ℕ × ℕ)))) = X
    have hok : exIsOk X.1 = true := by
      rw [← hXdef]
      split_ifs with h1 h2
      · exact paginationLoop_isOk e rest _ klines hnf
      · rfl
      · rfl
    rcases hx : X.1 with msg | all
    · rw [hx] at hok
      simp [exIsOk] at hok
    · simp [hx, Except.map, exIsOk]

/-- C4 counterexample: with a transport failure on the second page, the
fetch issued two requests (so the failure is on a later pagination page)
and the whole fetch fails instead of returning the partial series. -/
theorem fetch_late_failure_cx :
    (fetch_bitcoin_data 0 100 (.ok c6page) [.netFail]).2.length = 2 ∧
    exIsOk (fetch_bitcoin_data 0 100 (.ok c6page) [.netFail]).1 = false := by
  constructor
  · decide
  · decide

/-- Witness for C4: a later non-success status still yields a successful
fetch. -/
theorem fetch_failure_policy_witness :
    exIsOk (fetch_bitcoin_data 0 5 (.ok []) [.httpFail]).1 = true :=
  fetch_failure_policy.2.2 0 5 [] [.httpFail] (by decide)

/-! ## C6: pagination stepping and request bounds -/

/-- C6 (corrected): every request of the pagination loop carries the same
end time; a follow-up request starts at the previous page's last close time
plus one; an empty page stops the loop without any further request; and
when every page that keeps the loop running advances the start (its last
close time is at least the requested start), the number of pagination
requests is at most end_time − start. The claimed bound proportional to
range/(page_limit × interval) is not enforced by the code: a page that does
not advance the start keeps the loop issuing requests (see the
counterexample). -/
theorem pagination_behavior :
    (∀ (e : ℕ) (rs : List PageResult) (ns : ℕ) (acc : List Kline),
      ∀ q ∈ (paginationLoop e rs ns acc).2, q.2 = e) ∧
    (∀ (e : ℕ) (rs : List PageResult) (ns : ℕ) (acc : List Kline)
      (page : List Kline) (lk : Kline), ns < e →
      page.getLast? = some lk → 6 < lk.length → page.isEmpty = false →
      paginationLoop e (.ok page :: rs) ns acc =
        ((paginationLoop e rs (ratToNat (parse_to_f64 (lk.getD 6 .other)) + 1)
            (acc ++ page)).1,
          (ns, e) :: (paginationLoop e rs
            (ratToNat (parse_to_f64 (lk.getD 6 .other)) + 1)
            (acc ++ page)).2)) ∧
    (∀ (e : ℕ) (rs : List PageResult) (ns : ℕ) (acc : List Kline), ns < e →
      paginationLoop e (.ok [] :: rs) ns acc = (Except.ok acc, [(ns, e)])) ∧
    (∀ (e : ℕ) (rs : List PageResult) (ns : ℕ) (acc : List Kline),
      advancingB ns rs = true →
      (paginationLoop e rs ns acc).2.length ≤ e - ns) := by
  refine ⟨?_, ?_, ?_, ?_⟩
  · intro e rs
    induction rs with
    | nil =>
      intro ns acc q hq
      by_cases hlt : ns < e <;> simp [paginationLoop, hlt] at hq
    | cons r rest ih =>
      intro ns acc q hq
      by_cases hlt : ns < e
      · cases r with
        | netFail =>
          simp [paginationLoop, hlt] at hq
          simp [hq]
        | httpFail =>
          simp [paginationLoop, hlt] at hq
          simp [hq]
        | ok additional =>
          by_cases hemp : additional.isEmpty
          · simp [paginationLoop, hlt, hemp] at hq
            simp [hq]
          · rcases hlast : additional.getLast? with _ | nextLast
            · simp [paginationLoop, hlt, hemp, hlast] at hq
              simp [hq]
            · by_cases hlen : 6 < nextLast.length
              · simp only [paginationLoop, if_pos hlt, if_neg hemp, hlast,
                  if_pos hlen, List.mem_cons] at hq
                rcases hq with rfl | hq2
                · rfl
                · exact ih _ _ q hq2
              · simp [paginationLoop, hlt, hemp, hlast, hlen] at hq
                simp [hq]
      · cases r with
        | netFail => simp [paginationLoop, hlt] at hq
        | httpFail => simp [paginationLoop, hlt] at hq
        | ok additional => simp [paginationLoop, hlt] at hq
  · intro e rs ns acc page lk hlt hlast hlen hpe
    simp [paginationLoop, hlt, hpe, hlast, hlen]
  · intro e rs ns acc hlt
    simp [paginationLoop, hlt]
  · intro e rs
    induction rs with
    | nil =>
      intro ns acc _
      by_cases hlt : ns < e <;> simp [paginationLoop, hlt]
    | cons r rest ih =>
      intro ns acc hadv
      by_cases hlt : ns < e
      · cases r with
        | netFail =>
          simp [paginationLoop, hlt]
          omega
        | httpFail =>
          simp [paginationLoop, hlt]
          omega
        | ok page =>
          by_cases hemp : page.isEmpty
          · simp [paginationLoop, hlt, hemp]
            omega
          · rcases hlast : page.getLast? with _ | lk
            · simp [paginationLoop, hlt, hemp, hlast]
              omega
            · by_cases hlen : 6 < lk.length
              · have hlastD : page.getLastD [] = lk := by
                  rw [List.getLastD_eq_getLast?, hlast]
                  rfl
                have hadv2 : ns ≤ lastCloseNat page ∧
                    advancingB (lastCloseNat page + 1) rest = true := by
                  rw [advancingB, if_neg hemp, hlastD, if_pos hlen,
                    Bool.and_eq_true] at hadv
                  exact ⟨of_decide_eq_true hadv.1, hadv.2⟩
                have hstep := ih (lastCloseNat page + 1) (acc ++ page) hadv2.2
                have hlc : ratToNat (parse_to_f64 (lk.getD 6 .other)) =
                    lastCloseNat page := by
                  rw [lastCloseNat, hlastD]
                simp only [paginationLoop, if_pos hlt, if_neg hemp, hlast,
                  if_pos hlen, hlc, List.length_cons]
                omega
              · simp [paginationLoop, hlt, hemp, hlast, hlen]
                omega
      · cases r with
        | netFail => simp [paginationLoop, hlt]
        | httpFail => simp [paginationLoop, hlt]
        | ok page => simp [paginationLoop, hlt]

/-- C6 counterexample: pages that keep their last close time at 5 never
advance the start past 6, so the loop issues one request per available
response: three extra responses give four requests (the follow-up starts
repeat 6), six give seven — no bound proportional to
range/(page_limit × interval) holds. -/
theorem pagination_bound_cx :
    (fetch_bitcoin_data 0 100 (.ok c6page) (List.replicate 3 (.ok c6page))).2 =
      [(0, 100), (6, 100), (6, 100), (6, 100)] ∧
    (fetch_bitcoin_data 0 100 (.ok c6page)
      (List.replicate 6 (.ok c6page))).2.length = 7 := by
  constructor
  · decide
  · decide

/-- Witness for C6: over an advancing single-page trace the request count
obeys the end − start bound. -/
theorem pagination_behavior_witness :
    (paginationLoop 20 [PageResult.ok w6page] 6 []).2.length ≤ 20 - 6 :=
  pagination_behavior.2.2.2 20 [PageResult.ok w6page] 6 [] (by decide)

/-! ## C5: totality of report assembly -/

theorem bind_isSome {α β : Type} (o : Option α) (f : α → Option β)
    (ho : o.isSome = true) (hf : ∀ a, (f a).isSome = true) :
    (o >>= f).isSome = true := by
  rcases Option.isSome_iff_exists.mp ho with ⟨a, ha⟩
  rw [ha]
  exact hf a

theorem optMapM_isSome {α β : Type} (f : α → Option β) :
    ∀ (l : List α), (∀ a ∈ l, (f a).isSome = true) →
      (optMapM f l).isSome = true := by
  intro l
  induction l with
  | nil => intro _; rfl
  | cons x xs ih =>
    intro h
    rcases Option.isSome_iff_exists.mp (h x (by simp)) with ⟨b, hb⟩
    rcases Option.isSome_iff_exists.mp
      (ih (fun a ha => h a (by simp [ha]))) with ⟨bs, hbs⟩
    simp [optMapM, hb, hbs]

theorem renderOpt_isSome {β : Type} (o : Option β) (k : β → Option String)
    (hk : ∀ s, (k s).isSome = true) : (renderOpt o k).isSome = true := by
  cases o with
  | none => rfl
  | some s => exact hk s

theorem dateAt_isSome (tss : List ℚ) (i : ℕ)
    (h : ∀ t ∈ tss, (msDate t).isSome = true) :
    (dateAt tss i).isSome = true := by
  rw [dateAt]
  split_ifs with hi
  · rw [List.getD_eq_getElem _ _ hi]
    exact h _ (List.getElem_mem hi)
  · rfl

theorem sectionDates_isSome (tss : List ℚ) (count : ℕ)
    (h : ∀ t ∈ tss, (msDate t).isSome = true) :
    (sectionDates tss count).isSome = true :=
  optMapM_isSome _ _ (fun i _ => dateAt_isSome tss i h)

theorem sectionTimestamps_ok (data : CryptoData)
    (h : ∀ p ∈ data.prices, (msDate p.1).isSome = true) :
    ∀ t ∈ sectionTimestamps data, (msDate t).isSome = true := by
  intro t ht
  rw [sectionTimestamps] at ht
  split_ifs at ht with h5
  · rcases List.mem_map.mp (lastN_subset 5 _ ht) with ⟨p, hp, rfl⟩
    exact h p hp
  · simp at ht

theorem cti_isSome (sqrtf : ℚ → ℚ) (data : CryptoData)
    (h : ∀ p ∈ data.prices, (msDate p.1).isSome = true) :
    (calculate_technical_indicators sqrtf data).isSome = true := by
  have hts := sectionTimestamps_ok data h
  rw [calculate_technical_indicators]
  apply bind_isSome
  · exact renderOpt_isSome _ _ (fun s =>
      bind_isSome _ _ (sectionDates_isSome _ _ hts) (fun _ => rfl))
  · intro smaStr
    apply bind_isSome
    · exact renderOpt_isSome _ _ (fun s =>
        bind_isSome _ _ (sectionDates_isSome _ _ hts) (fun _ => rfl))
    · intro emaStr
      apply bind_isSome
      · exact renderOpt_isSome _ _ (fun s =>
          bind_isSome _ _ (sectionDates_isSome _ _ hts) (fun _ => rfl))
      · intro rsiStr
        apply bind_isSome
        · exact renderOpt_isSome _ _ (fun s =>
            bind_isSome _ _ (sectionDates_isSome _ _ hts) (fun _ => rfl))
        · intro macdStr
          apply bind_isSome
          · exact renderOpt_isSome _ _ (fun s =>
              bind_isSome _ _ (sectionDates_isSome _ _ hts) (fun _ => rfl))
          · intro bbStr
            apply bind_isSome
            · exact renderOpt_isSome _ _ (fun s =>
                bind_isSome _ _ (sectionDates_isSome _ _ hts) (fun _ => rfl))
            · intro obvStr
              apply bind_isSome
              · exact renderOpt_isSome _ _ (fun s =>
                  bind_isSome _ _ (sectionDates_isSome _ _ hts) (fun _ => rfl))
              · intro atrStr
                rfl

theorem ffg_isSome (fng : List FearGreedData)
    (h : ∀ en ∈ fng,
      ((parseI64 en.timestamp).bind from_timestamp).isSome = true) :
    (format_fear_greed_data fng).isSome = true := by
  rw [format_fear_greed_data]
  apply bind_isSome
  · apply optMapM_isSome
    intro en hen
    have hc := h en hen
    rcases hts : parseI64 en.timestamp with _ | ts
    · rw [hts] at hc
      simp at hc
    · rw [hts] at hc
      simp only [Option.some_bind] at hc
      rcases Option.isSome_iff_exists.mp hc with ⟨dt, hdt⟩
      simp [hts, hdt]
  · intro _
    rfl

/-- C5 (corrected): report assembly never fails provided every candle
timestamp is representable as a date and every sentiment timestamp parses
as an in-range integer; a malformed sentiment timestamp makes the
assembly's `unwrap` panic (see the counterexample), so the claim's
"including malformed entries" is wrong. -/
theorem report_assembly_total (sqrtf : ℚ → ℚ) (data : CryptoData)
    (fng : List FearGreedData)
    (hts : ∀ p ∈ data.prices, (msDate p.1).isSome = true)
    (hohlc : ∀ r ∈ data.ohlc_data, (msDate r.1).isSome = true)
    (hfg : ∀ en ∈ fng,
      ((parseI64 en.timestamp).bind from_timestamp).isSome = true) :
    (format_data_for_analysis sqrtf data fng).isSome = true := by
  rw [format_data_for_analysis]
  split_ifs with hemp h24
  · apply bind_isSome
    · apply optMapM_isSome
      intro tp htp
      exact bind_isSome _ _ (hts tp htp) (fun _ => rfl)
    · intro rows
      apply bind_isSome
      · rfl
      · intro base
        dsimp only
        apply bind_isSome
        · exact cti_isSome sqrtf data hts
        · intro tech
          apply bind_isSome
          · exact ffg_isSome fng hfg
          · intro _
            rfl
  all_goals
    apply bind_isSome
    · apply optMapM_isSome
      intro r hr
      exact bind_isSome _ _ (hohlc r hr) (fun _ => rfl)
    · intro ap
      dsimp only
      apply bind_isSome
      · apply optMapM_isSome
        intro r hr
        exact bind_isSome _ _ (hohlc r (List.drop_subset _ _ hr))
          (fun _ => rfl)
      · intro recent
        apply bind_isSome
        · rfl
        · intro base
          dsimp only
          apply bind_isSome
          · exact cti_isSome sqrtf data hts
          · intro tech
            apply bind_isSome
            · exact ffg_isSome fng hfg
            · intro _
              rfl

/-- C5 counterexample: a sentiment point whose timestamp is not a number
makes the assembly fail (the source would panic in the `unwrap` of
`timestamp.parse::<i64>()`). -/
theorem report_assembly_cx :
    format_data_for_analysis ratSqrt emptyData [badFng] = none := by
  decide

/-- Witness for C5: with a well-formed sentiment point the assembly
produces a report. -/
theorem report_assembly_total_witness :
    (format_data_for_analysis ratSqrt emptyData [goodFng]).isSome = true :=
  report_assembly_total ratSqrt emptyData [goodFng] (by decide) (by decide)
    (by decide)

/-! ## C10: determinism of report formatting -/

/-- C10 (confirmed): report formatting is a pure function of the crypto
data and the sentiment data — two calls on equal inputs produce identical
results (the embedding exhibits the source as a function of exactly these
two inputs; it reads no clock and no environment). -/
theorem report_deterministic (sqrtf : ℚ → ℚ) (d1 d2 : CryptoData)
    (f1 f2 : List FearGreedData) (hd : d1 = d2) (hf : f1 = f2) :
    format_data_for_analysis sqrtf d1 f1 = format_data_for_analysis sqrtf d2 f2 := by
  rw [hd, hf]

/-- Witness for C10: the determinism theorem at a concrete input. -/
theorem report_deterministic_witness :
    format_data_for_analysis ratSqrt emptyData [goodFng] =
      format_data_for_analysis ratSqrt emptyData [goodFng] :=
  report_deterministic ratSqrt emptyData emptyData [goodFng] [goodFng] rfl rfl

end CryptoForecast
